import Mathlib

/-!
Verification development for the klbfw-describe rendering engine.

The repository is a JavaScript tool that introspects a REST API and renders
the JSON description documents it receives into human-readable reports and
TypeScript type definitions.  This file gives a shallow embedding of the
rendering core — the type mappers, name deriver, object pretty-printer,
description formatters and TypeScript emitters — and proves properties about
them.

Modelling conventions:
* JavaScript strings are modelled as `List Char` (`Str`); template-literal
  concatenation becomes list append.  Output produced through `console.log` /
  `printOutput` is modelled as a `List Str`, one element per call (an element
  may contain embedded newlines, exactly as in the source).
* JavaScript `undefined`-able values are `Option`s; the various truthiness
  tests are modelled per JS semantics (empty string falsy, any array truthy,
  `x !== false`, ...).
* `String.prototype.localeCompare` and the default `Array.prototype.sort`
  comparator are modelled as code-point lexicographic comparison, which
  coincides with the ICU / UTF-16 behaviour on the ASCII inputs considered
  here.  `Array.prototype.sort` itself is modelled as a stable insertion
  sort, which agrees with any correct sort whenever the comparator is
  consistent (it is, on all inputs appearing in the theorems below).
* `toLowerCase` / `toUpperCase` are modelled by `Char.toLower` / `Char.toUpper`
  (ASCII case mapping), matching JS on ASCII data.
-/

set_option maxRecDepth 20000

namespace Klb

/-- JavaScript strings, modelled as lists of characters. -/
abbrev Str := List Char

/-- Embed a Lean string literal as a `Str`. -/
def lit (s : String) : Str := s.data

/-- `s.toLowerCase()` (ASCII). -/
def strLower (s : Str) : Str := s.map Char.toLower

/-- `' '.repeat(n)`. -/
def spaces (n : Nat) : Str := List.replicate n ' '

/-- Indentation used by the pretty printer: `' '.repeat(depth * 2)`. -/
def indentS (depth : Nat) : Str := spaces (depth * 2)

/-- `Array.prototype.join(sep)` over already-stringified pieces. -/
def joinSep (sep : Str) : List Str → Str
  | [] => []
  | [x] => x
  | x :: y :: rest => x ++ sep ++ joinSep sep (y :: rest)

/-- `String.prototype.endsWith`. -/
def endsW (s suffix : Str) : Bool := List.isSuffixOf suffix s

/-- `String.prototype.startsWith`. -/
def startsW (s pre : Str) : Bool := List.isPrefixOf pre s

/-- `String.prototype.includes` (substring search). -/
def includesStr (s sub : Str) : Bool :=
  (List.range (s.length + 1)).any (fun i => List.isPrefixOf sub (s.drop i))

/-- `str.slice(0, -n)` for a nonnegative `n`: drop the last `n` characters
(yields the empty string when `n ≥ length`). -/
def sliceDropLast (s : Str) (n : Nat) : Str := s.take (s.length - n)

/-- `String.prototype.padEnd(n)` with spaces. -/
def padEnd (s : Str) (n : Nat) : Str := s ++ List.replicate (n - s.length) ' '

/-- JS truthiness of an optional string (`undefined` and `""` are falsy). -/
def truthyS : Option Str → Bool
  | none => false
  | some s => !s.isEmpty

/-- JS truthiness of an optional array (`undefined` falsy, any array truthy —
including the empty one). -/
def truthyL {α : Type} : Option (List α) → Bool
  | none => false
  | some _ => true

/-- JS truthiness of an optional number (`undefined` and `0` are falsy). -/
def truthyN : Option Int → Bool
  | none => false
  | some n => n != 0

/-- Interpolation `${x}` of an optional string: JS renders `undefined` as the
text `undefined`. -/
def interpS : Option Str → Str
  | none => lit "undefined"
  | some s => s

/-- `x || y` on an optional string (first operand kept when truthy). -/
def orS (x : Option Str) (y : Str) : Str :=
  match x with
  | some s => if s.isEmpty then y else s
  | none => y

/-- `(n : number).toString()` for the integers appearing in the documents. -/
def numStr (n : Int) : Str := (toString n).data

/-- Code-point comparison of characters. -/
def charLtB (a b : Char) : Bool := a.toNat < b.toNat

/-- Code-point lexicographic strict order on strings; this models both the
default `Array.prototype.sort` string comparison and (on the ASCII data used
here) `localeCompare`'s sign. -/
def strLtB : Str → Str → Bool
  | [], [] => false
  | [], _ :: _ => true
  | _ :: _, [] => false
  | a :: as, b :: bs =>
    if a = b then strLtB as bs else charLtB a b

/-- Sign-valued comparison used where the source calls `localeCompare`. -/
def localeCmp (a b : Str) : Int :=
  if strLtB a b then -1 else if a = b then 0 else 1

/--
Field/argument metadata.  JavaScript passes loosely-typed objects around
(table-column infos, procedure/method argument infos and sub-resource entries
all flow through the same helpers), so a single record models all of them;
absent JS properties are `none`/`false` defaults.  The source property
`null` is modelled by the field `nullb`; `prefix` entries use `name`,
`methods` and `description`.
-/
structure FieldMeta where
  name : Str := []
  type : Option Str := none
  required : Bool := false
  description : Option Str := none
  desc : Option Str := none
  validator : Option Str := none
  values : Option (List Str) := none
  nullb : Option Bool := none
  unsigned : Bool := false
  size : Option Int := none
  dflt : Option Str := none
  key : Option Str := none
  protect : Bool := false
  methods : Option (List Str) := none
deriving Repr, DecidableEq

/-- Procedure / method schema (`data.procedure` and entries of `data.func`). -/
structure ProcSchema where
  name : Option Str := none
  static : Bool := false
  args : Option (List FieldMeta) := none
  description : Option Str := none
  desc : Option Str := none
  return_description : Option Str := none
  return_type : Option Str := none
deriving Repr, DecidableEq

/-- Value of an entry of `Struct._keys`: either the literal string `FOREIGN`
or a list of field names. -/
inductive KeyVal where
  | strv (s : Str)
  | arrv (l : List Str)
deriving Repr, DecidableEq

/-- Table schema.  `Struct` holds the column entries in insertion order; the
reserved `_primary` and `_keys` members of the source's `Struct` object are
modelled as the separate fields `primary` and `keysMeta` (the column iteration
in the source filters out every key starting with `_`, and that filter is kept
on `Struct` itself). -/
structure TableSchema where
  Name : Str := []
  Struct : List (Str × FieldMeta) := []
  primary : Option (List Str) := none
  keysMeta : Option (List (Str × KeyVal)) := none
deriving Repr, DecidableEq

/-- The `data` member of an OPTIONS response. -/
structure ApiData where
  Path : Option (List Str) := none
  typ : Option Str := none
  description : Option Str := none
  desc : Option Str := none
  access : Option Str := none
  allowed_methods : Option (List Str) := none
  allowed_methods_object : Option (List Str) := none
  prefixes : Option (List FieldMeta) := none
  table : Option TableSchema := none
  procedure : Option ProcSchema := none
  func : Option (List ProcSchema) := none
deriving Repr, DecidableEq

/-- A parsed JSON response; `data` may be absent. -/
structure JsonResponse where
  data : Option ApiData := none
deriving Repr, DecidableEq

/-- Column entries of a table: `Object.keys(Struct).filter(k => !k.startsWith('_'))`
paired with their infos. -/
def tableFields (t : TableSchema) : List (Str × FieldMeta) :=
  t.Struct.filter (fun p => !(startsW p.1 (lit "_")))

/-! ### Type Mapper (index.js `mapToTsType`) -/

/-- The `validatorMap` object of `mapToTsType`: recognized semantic validators,
all mapping to `string`. -/
def validatorMapLookup (v : Str) : Option Str :=
  if v = lit "uuid" then some (lit "string")
  else if v = lit "email" then some (lit "string")
  else if v = lit "url" then some (lit "string")
  else if v = lit "phone" then some (lit "string")
  else if v = lit "password" then some (lit "string")
  else if v = lit "login" then some (lit "string")
  else if v = lit "language" then some (lit "string")
  else none

/-- `'${info.values.join('\' | \'')}'`: single-quoted union of enum values. -/
def enumJoined (vals : List Str) : Str :=
  lit "\x27" ++ joinSep (lit "\x27 | \x27") vals ++ lit "\x27"

/-- The `sqlTypeMap` object lookup of `mapToTsType` (the `bigint`, `char`,
`enum` and `set` entries carry the source's conditional values). -/
def sqlTypeMapLookup (t : Str) (info : FieldMeta) : Option Str :=
  if t = lit "int" then some (lit "number")
  else if t = lit "integer" then some (lit "number")
  else if t = lit "tinyint" then some (lit "number")
  else if t = lit "smallint" then some (lit "number")
  else if t = lit "mediumint" then some (lit "number")
  else if t = lit "bigint" then some (if info.unsigned then lit "number" else lit "number")
  else if t = lit "decimal" then some (lit "number")
  else if t = lit "float" then some (lit "number")
  else if t = lit "double" then some (lit "number")
  else if t = lit "number" then some (lit "number")
  else if t = lit "char" then
    some (if info.validator = some (lit "uuid") then lit "string" else lit "string")
  else if t = lit "varchar" then some (lit "string")
  else if t = lit "text" then some (lit "string")
  else if t = lit "tinytext" then some (lit "string")
  else if t = lit "mediumtext" then some (lit "string")
  else if t = lit "longtext" then some (lit "string")
  else if t = lit "string" then some (lit "string")
  else if t = lit "date" then some (lit "string")
  else if t = lit "datetime" then some (lit "KlbDateTime")
  else if t = lit "timestamp" then some (lit "KlbDateTime")
  else if t = lit "time" then some (lit "string")
  else if t = lit "year" then some (lit "number")
  else if t = lit "enum" then
    some (if truthyL info.values then enumJoined (info.values.getD []) ++ lit " | null"
          else lit "string")
  else if t = lit "set" then
    some (if truthyL info.values then lit "string[]" else lit "string[]")
  else if t = lit "json" then some (lit "Record<string, any>")
  else if t = lit "blob" then some (lit "string")
  else if t = lit "binary" then some (lit "string")
  else if t = lit "varbinary" then some (lit "string")
  else if t = lit "bool" then some (lit "boolean")
  else if t = lit "boolean" then some (lit "boolean")
  else if t = lit "array" then some (lit "any[]")
  else if t = lit "object" then some (lit "Record<string, any>")
  else none

/-- `info.null !== false ? ' | null' : ''`. -/
def nullSuffix (info : FieldMeta) : Str :=
  if info.nullb = some false then [] else lit " | null"

/-- The part of index.js `mapToTsType` that runs after the validator-map
check: the enum/set early returns, the uuid foreign-key check and the
`sqlTypeMap` lookup with `'any'` fallback. -/
def mapToTsTypeRest (t : Str) (info : FieldMeta) : Str :=
  if t = lit "enum" && truthyL info.values then
    enumJoined (info.values.getD []) ++ nullSuffix info
  else if t = lit "set" && truthyL info.values then
    lit "string[]"
  else if info.validator = some (lit "uuid") then
    lit "string"
  else
    (sqlTypeMapLookup t info).getD (lit "any")

/-- index.js `mapToTsType(apiType, info)`: map an API/SQL type name plus field
metadata to a TypeScript type expression. -/
def mapToTsType (apiType : Option Str) (info : FieldMeta) : Str :=
  match apiType with
  | none => lit "any"
  | some s =>
    if s.isEmpty then lit "any"
    else
      let t := strLower s
      match info.validator with
      | some v =>
        match validatorMapLookup v with
        | some mapped => mapped
        | none => mapToTsTypeRest t info
      | none => mapToTsTypeRest t info

/-! ### Type Mapper (src/api.js `convertToTypeScriptType`) -/

/-- api.js `convertToTypeScriptType(type, field, info)`. -/
def convertToTypeScriptType (type : Option Str) (field : Str) (info : FieldMeta) : Str :=
  match type with
  | none => lit "any"
  | some s =>
    if s.isEmpty then lit "any"
    else
      let lowerType := strLower s
      if endsW field (lit "__") && info.validator = some (lit "uuid") then
        lit "string"
      else if (lowerType = lit "enum" || lowerType = lit "set") && truthyL info.values then
        joinSep (lit " | ") ((info.values.getD []).map (fun v => lit "\x27" ++ v ++ lit "\x27"))
      else if lowerType = lit "int" || lowerType = lit "integer" || lowerType = lit "bigint"
           || lowerType = lit "tinyint" || lowerType = lit "smallint"
           || lowerType = lit "mediumint" || lowerType = lit "float"
           || lowerType = lit "double" || lowerType = lit "decimal"
           || lowerType = lit "number" then
        lit "number"
      else if lowerType = lit "char" then
        if info.validator = some (lit "uuid") then lit "string" else lit "string"
      else if lowerType = lit "string" || lowerType = lit "text" || lowerType = lit "tinytext"
           || lowerType = lit "mediumtext" || lowerType = lit "longtext"
           || lowerType = lit "varchar" then
        lit "string"
      else if lowerType = lit "bool" || lowerType = lit "boolean" then
        lit "boolean"
      else if lowerType = lit "datetime" || lowerType = lit "timestamp" then
        lit "KlbDateTime"
      else if lowerType = lit "date" then
        lit "string"
      else if lowerType = lit "time" then
        lit "string"
      else if lowerType = lit "json" || lowerType = lit "array" then
        lit "any[]"
      else if lowerType = lit "object" || lowerType = lit "json_object" then
        lit "Record<string, any>"
      else
        lit "any"

/-! ### Name Deriver -/

/-- ASCII letter test, `/[a-zA-Z]/`. -/
def isAsciiLetter (c : Char) : Bool := c.isAlpha

/-- JS `\w` word characters: `[A-Za-z0-9_]`. -/
def isWordChar (c : Char) : Bool := c.isAlphanum || c = '_'

/-- Characters removed by index.js `pascalCase`'s second replace,
`/[\s-_]+/`. -/
def isSpaceDashUnderscore (c : Char) : Bool :=
  c = ' ' || c = '\t' || c = '\n' || c = '\x0d' || c = '\x0c' || c = '\x0b'
  || c = '-' || c = '_'

/-- The uppercasing pass of index.js `pascalCase`
(`replace(/(?:^\w|[A-Z]|\b\w)/g, toUpperCase)`): a character is uppercased
when it is already uppercase or when it is a word character at the start or
right after a non-word character.  `boundary` records whether the previous
character (if any) was a non-word character. -/
def pcMark : Str → Bool → Str
  | [], _ => []
  | c :: rest, boundary =>
    (if c.isUpper then c
     else if isWordChar c && boundary then c.toUpper
     else c) :: pcMark rest (!(isWordChar c))

/-- index.js `pascalCase(str)`: uppercase word starts, then strip whitespace,
dashes and underscores. -/
def pascalCaseIdx (s : Str) : Str :=
  (pcMark s true).filter (fun c => !(isSpaceDashUnderscore c))

/-- `str.split(/[^a-zA-Z0-9]+/)`: split on maximal runs of non-alphanumeric
characters, keeping the empty boundary pieces JS produces for leading and
trailing separators (a non-alphanumeric character contributes a new empty
piece exactly when it ends a separator run, i.e. when it is last or followed
by an alphanumeric character). -/
def splitNonAlnum : Str → List Str
  | [] => [[]]
  | c :: rest =>
    if c.isAlphanum then
      match splitNonAlnum rest with
      | [] => [[c]]
      | tok :: toks => (c :: tok) :: toks
    else
      if (match rest with | [] => true | r :: _ => r.isAlphanum) then
        [] :: splitNonAlnum rest
      else
        splitNonAlnum rest

/-- `part.charAt(0).toUpperCase() + part.slice(1)`. -/
def capFirst : Str → Str
  | [] => []
  | c :: rest => c.toUpper :: rest

/-- api.js `pascalCase(str)`: split on non-alphanumeric runs, capitalize each
piece, join. -/
def pascalCaseApi (s : Str) : Str :=
  if s.isEmpty then []
  else ((splitNonAlnum s).map capFirst).flatten

/-- api.js `getTypeName(apiPath)`: derive a TypeScript interface name from an
API path. -/
def getTypeName (apiPath : Str) : Str :=
  if apiPath.isEmpty then lit "ApiObject"
  else
    let parts := apiPath.splitOn '/'
    let lastPart := parts.getLastD []
    if lastPart.contains ':' then
      pascalCaseApi (lastPart.takeWhile (fun c => c ≠ ':'))
    else if lastPart.any (fun c => !isAsciiLetter c) then
      match (parts.dropLast).getLast? with
      | some p => if p.isEmpty then lit "ApiObject" else pascalCaseApi p
      | none => lit "ApiObject"
    else if parts.length > 1 then
      pascalCaseApi ((parts.dropLast).getLastD [] ++ lastPart)
    else
      pascalCaseApi lastPart

/-- The older `getTypeName` variant found in the unnamed historical source
file (part_003): identical to `getTypeName` except that it lacks the
"combine the last two segments" branch and always uses the last segment for
nested alphabetic paths. -/
def getTypeNameOld (apiPath : Str) : Str :=
  if apiPath.isEmpty then lit "ApiObject"
  else
    let parts := apiPath.splitOn '/'
    let lastPart := parts.getLastD []
    if lastPart.contains ':' then
      pascalCaseApi (lastPart.takeWhile (fun c => c ≠ ':'))
    else if lastPart.any (fun c => !isAsciiLetter c) then
      match (parts.dropLast).getLast? with
      | some p => if p.isEmpty then lit "ApiObject" else pascalCaseApi p
      | none => lit "ApiObject"
    else
      pascalCaseApi lastPart

/-! ### index.js `getExampleValue` -/

/-- The `examples` object of index.js `getExampleValue`. -/
def exampleMapLookup (t : Str) : Option Str :=
  if t = lit "bool" then some (lit "true")
  else if t = lit "boolean" then some (lit "true")
  else if t = lit "int" then some (lit "123")
  else if t = lit "integer" then some (lit "123")
  else if t = lit "float" then some (lit "12.34")
  else if t = lit "double" then some (lit "12.34")
  else if t = lit "number" then some (lit "123")
  else if t = lit "string" then some (lit "\x22example\x22")
  else if t = lit "text" then some (lit "\x22example text\x22")
  else if t = lit "json" then some (lit "\x7b key: \x22value\x22 \x7d")
  else if t = lit "array" then some (lit "[]")
  else if t = lit "object" then some (lit "\x7b\x7d")
  else if t = lit "date" then some (lit "\x222023-01-01\x22")
  else if t = lit "datetime" then some (lit "\x7b unix: 1742172348, us: 311592, iso: \x222025-03-17 09:45:48.311592\x22, tz: \x22Asia/Tokyo\x22, full: \x221742172348311592\x22, unixms: \x221742172348311\x22 \x7d")
  else if t = lit "timestamp" then some (lit "\x7b unix: 1742172348, us: 311592, iso: \x222025-03-17 09:45:48.311592\x22, tz: \x22Asia/Tokyo\x22, full: \x221742172348311592\x22, unixms: \x221742172348311\x22 \x7d")
  else if t = lit "email" then some (lit "\x22user@example.com\x22")
  else if t = lit "url" then some (lit "\x22https://example.com\x22")
  else if t = lit "file" then some (lit "\x22file_id\x22")
  else none

/-- index.js `getExampleValue(type)`. -/
def getExampleValue (type : Option Str) : Str :=
  match type with
  | none => lit "null"
  | some t => (exampleMapLookup (strLower t)).getD (lit "null")

/-! ### JSON values and the object pretty-printer (index.js `formatObject`)

The pretty printer is modelled in its `markdownFormat: true` mode, which
renders the same lines as the colorized mode minus the ANSI escape wrappers.
-/

/-- Arbitrary JSON values (the payload of a GET response). -/
inductive JsonVal where
  | nullv
  | strv (s : Str)
  | numv (n : Int)
  | boolv (b : Bool)
  | arrv (items : List JsonVal)
  | objv (fields : List (Str × JsonVal))

/-- `typeof item !== 'object' || item === null`: arrays and objects are the
only non-primitive values. -/
def isPrimitive : JsonVal → Bool
  | .arrv _ => false
  | .objv _ => false
  | _ => true

/-- `n.toString()` for a JS integer. -/
def natStr (n : Nat) : Str := (toString n).data

/-- `true`/`false` as text. -/
def boolStr (b : Bool) : Str := if b then lit "true" else lit "false"

mutual

/-- Template-literal interpolation `${v}` of a JSON value (JS `String(v)`):
strings verbatim, numbers/booleans printed, `null` as `null`, arrays joined
with commas (with `null` elements rendered empty, per `Array.prototype.join`),
objects as `[object Object]`. -/
def jsInterp : JsonVal → Str
  | .nullv => lit "null"
  | .strv s => s
  | .numv n => numStr n
  | .boolv b => boolStr b
  | .objv _ => lit "[object Object]"
  | .arrv items => joinSep (lit ",") (jsInterpElems items)

/-- Elementwise stringification for `Array.prototype.join`, which renders
`null` elements as the empty string. -/
def jsInterpElems : List JsonVal → List Str
  | [] => []
  | .nullv :: rest => [] :: jsInterpElems rest
  | v :: rest => jsInterp v :: jsInterpElems rest

end

/-- One element of an inline (`[a, b, c]`) array rendering, markdown branch:
`null` bare, strings quoted, everything else via `toString`. -/
def inlineVal : JsonVal → Str
  | .nullv => lit "null"
  | .strv s => lit "\x22" ++ s ++ lit "\x22"
  | .numv n => numStr n
  | .boolv b => boolStr b
  | .arrv items => jsInterp (.arrv items)
  | .objv _ => lit "[object Object]"

/-- Insertion step of the stable comparator sort modelling
`Array.prototype.sort(cmp)`. -/
def insertByCmp {α : Type} (cmp : α → α → Int) (x : α) : List α → List α
  | [] => [x]
  | y :: ys => if cmp y x ≤ 0 then y :: insertByCmp cmp x ys else x :: y :: ys

/-- Stable insertion sort with a JS-style sign comparator. -/
def sortByCmp {α : Type} (cmp : α → α → Int) : List α → List α
  | [] => []
  | x :: xs => insertByCmp cmp x (sortByCmp cmp xs)

/-- The key comparator of `formatObject`: a translatable-ID key sorts
immediately before its companion key, everything else by `localeCompare`. -/
def pairCmp (a b : Str) : Int :=
  if endsW a (lit "_Text__") && b = sliceDropLast a 7 then -1
  else if endsW b (lit "_Text__") && a = sliceDropLast b 7 then 1
  else localeCmp a b

/-- First pass of `formatObject`'s object handling: the base names of all
translatable text ID fields (`<base>_Text__` keys holding a string). -/
def textBases (fields : List (Str × JsonVal)) : List Str :=
  (fields.filter (fun p => endsW p.1 (lit "_Text__") &&
      (match p.2 with | .strv _ => true | _ => false))).map
    (fun p => sliceDropLast p.1 7)

/-- The `sortedKeys` list of `formatObject`. -/
def sortedKeysOf (fields : List (Str × JsonVal)) : List Str :=
  sortByCmp pairCmp (fields.map Prod.fst)

/-- `obj[key]` for a present key (absent keys never occur on the paths that
dereference). -/
def jsGet (fields : List (Str × JsonVal)) (key : Str) : JsonVal :=
  (List.lookup key fields).getD .nullv

/-- The object is shaped like a rendered KlbDateTime value
(`obj.unix !== undefined && obj.iso !== undefined && obj.tz !== undefined`). -/
def isKlbDateTimeShape (fields : List (Str × JsonVal)) : Bool :=
  (List.lookup (lit "unix") fields).isSome &&
  (List.lookup (lit "iso") fields).isSome &&
  (List.lookup (lit "tz") fields).isSome

theorem lex3_of {a1 b1 a2 b2 a3 b3 : Nat}
    (h : a1 < b1 ∨ (a1 = b1 ∧ (a2 < b2 ∨ (a2 = b2 ∧ a3 < b3)))) :
    Prod.Lex (· < ·) (Prod.Lex (· < ·) (· < ·)) (a1, (a2, a3)) (b1, (b2, b3)) := by
  rcases h with h | ⟨h1, h⟩
  · exact Prod.Lex.left _ _ h
  · subst h1
    rcases h with h | ⟨h2, h⟩
    · exact Prod.Lex.right _ (Prod.Lex.left _ _ h)
    · subst h2
      exact Prod.Lex.right _ (Prod.Lex.right _ h)

theorem sizeOf_take_le {α : Type} [SizeOf α] :
    ∀ (l : List α) (n : Nat), sizeOf (l.take n) ≤ sizeOf l := by
  intro l
  induction l with
  | nil => intro n; cases n <;> simp
  | cons x xs ih =>
    intro n
    cases n with
    | zero => simp; omega
    | succ k =>
      simp only [List.take_succ_cons]
      have := ih k
      simp only [List.cons.sizeOf_spec]
      omega

theorem sizeOf_jsGet_le :
    ∀ (fields : List (Str × JsonVal)) (key : Str),
      sizeOf (jsGet fields key) ≤ sizeOf fields := by
  intro fields
  induction fields with
  | nil => intro key; simp [jsGet, List.lookup]
  | cons p ps ih =>
    intro key
    obtain ⟨k, v⟩ := p
    simp only [jsGet, List.lookup]
    by_cases hk : key == k
    · simp only [hk, if_true, Option.getD_some]
      simp only [List.cons.sizeOf_spec, Prod.mk.sizeOf_spec]
      omega
    · simp only [hk, Bool.false_eq_true, if_false]
      have := ih key
      simp only [jsGet] at this
      simp only [List.cons.sizeOf_spec]
      omega

theorem sizeOf_cons_head_lt {α : Type} [SizeOf α] (x : α) (xs : List α) :
    sizeOf x < sizeOf (x :: xs) := by
  simp only [List.cons.sizeOf_spec]
  omega

theorem sizeOf_cons_tail_lt {α : Type} [SizeOf α] (x : α) (xs : List α) :
    sizeOf xs < sizeOf (x :: xs) := by
  simp only [List.cons.sizeOf_spec]
  omega

theorem sizeOf_display_lt (items : List JsonVal) :
    sizeOf (if items.length > 5 then items.take 5 else items) < sizeOf (JsonVal.arrv items) := by
  have ht := sizeOf_take_le items 5
  simp only [JsonVal.arrv.sizeOf_spec]
  split <;> omega

theorem sizeOf_objv_fields_lt (fields : List (Str × JsonVal)) :
    sizeOf fields < sizeOf (JsonVal.objv fields) := by
  simp only [JsonVal.objv.sizeOf_spec]
  omega

theorem jsGet_size_split (fields : List (Str × JsonVal)) (key : Str) (rest : List Str) :
    sizeOf (jsGet fields key) < sizeOf fields ∨
      sizeOf (jsGet fields key) = sizeOf fields ∧ 0 < (key :: rest).length := by
  rcases Nat.lt_or_ge (sizeOf (jsGet fields key)) (sizeOf fields) with h | h
  · exact Or.inl h
  · have := sizeOf_jsGet_le fields key
    exact Or.inr ⟨by omega, by simp⟩

/-- The comma one rendered key contributes in the object rendering loop of
`formatObject` (suppressed when the next key is the current key's companion
text field). -/
def fmtCommaE (K : Str) (rest : List Str) (fields : List (Str × JsonVal)) (depth : Nat) :
    List Str :=
  match rest with
  | [] => []
  | nextKey :: _ =>
    if (textBases fields).contains nextKey && nextKey = sliceDropLast K 7 then []
    else [indentS (depth + 1) ++ lit ","]

mutual

/-- index.js `formatObject(obj, depth, maxDepth, options)` in markdown mode:
the list of output lines. -/
def fmtVal (v : JsonVal) (depth maxDepth : Nat) : List Str :=
  match v with
  | .nullv => [indentS depth ++ lit "null"]
  | .strv s => [indentS depth ++ lit "\x22" ++ s ++ lit "\x22"]
  | .numv n => [indentS depth ++ numStr n]
  | .boolv b => [indentS depth ++ boolStr b]
  | .arrv items =>
    if items.isEmpty then [indentS depth ++ lit "[]"]
    else if depth ≥ maxDepth then
      [indentS depth ++ lit "[Array with " ++ natStr items.length ++ lit " items]"]
    else if items.all isPrimitive && items.length ≤ 5 then
      [indentS depth ++ lit "[" ++ joinSep (lit ", ") (items.map inlineVal) ++ lit "]"]
    else
      [indentS depth ++ lit "["]
      ++ fmtItems (if items.length > 5 then items.take 5 else items) depth maxDepth
      ++ (if items.length > 5 then
            [indentS (depth + 1) ++ lit "... " ++ natStr (items.length - 5) ++ lit " more items"]
          else [])
      ++ [indentS depth ++ lit "]"]
  | .objv fields =>
    if fields.isEmpty then [indentS depth ++ lit "\x7b\x7d"]
    else if depth ≥ maxDepth then
      [indentS depth ++ lit "\x7bObject with " ++ natStr fields.length ++ lit " properties\x7d"]
    else if isKlbDateTimeShape fields then
      [indentS depth ++ lit "\x7b",
       indentS (depth + 1) ++ lit "\x22iso\x22: \x22" ++ jsInterp (jsGet fields (lit "iso")) ++ lit "\x22",
       indentS depth ++ lit "\x7d"]
    else
      [indentS depth ++ lit "\x7b"]
      ++ fmtPairs (sortedKeysOf fields) fields depth maxDepth
      ++ [indentS depth ++ lit "\x7d"]
termination_by (maxDepth - depth, sizeOf v, 0)
decreasing_by
  · exact lex3_of (Or.inr ⟨rfl, Or.inl (sizeOf_display_lt _)⟩)
  · exact lex3_of (Or.inr ⟨rfl, Or.inl (sizeOf_objv_fields_lt _)⟩)

/-- The per-element loop of `formatObject`'s vertical array rendering
(separator comma after every displayed element except the last). -/
def fmtItems (items : List JsonVal) (depth maxDepth : Nat) : List Str :=
  match items with
  | [] => []
  | [x] => fmtVal x (depth + 1) maxDepth
  | x :: y :: rest =>
    fmtVal x (depth + 1) maxDepth ++ [indentS (depth + 1) ++ lit ","]
    ++ fmtItems (y :: rest) depth maxDepth
termination_by (maxDepth - depth, sizeOf items, 0)
decreasing_by
  · apply lex3_of
    rcases Nat.lt_or_ge depth maxDepth with hd | hd
    · exact Or.inl (by omega)
    · exact Or.inr ⟨by omega, Or.inl (sizeOf_cons_head_lt _ _)⟩
  · apply lex3_of
    rcases Nat.lt_or_ge depth maxDepth with hd | hd
    · exact Or.inl (by omega)
    · exact Or.inr ⟨by omega, Or.inl (sizeOf_cons_head_lt _ _)⟩
  · exact lex3_of (Or.inr ⟨rfl, Or.inl (sizeOf_cons_tail_lt _ _)⟩)

/-- The lines one non-skipped key contributes in the object rendering loop
(the body of the `sortedKeys.forEach` of `formatObject` before the comma
logic): translatable-ID fields render their ID line and, when the companion
value is present, its text line; other fields render by value kind, recursing
one level deeper for objects and arrays. -/
def fmtEntryE (K : Str) (fields : List (Str × JsonVal)) (depth maxDepth : Nat) : List Str :=
  if endsW K (lit "_Text__")
      && (match jsGet fields K with | .strv _ => true | _ => false) then
    [indentS (depth + 1) ++ lit "\x22" ++ K ++ lit "\x22: \x22"
      ++ jsInterp (jsGet fields K) ++ lit "\x22 // Translatable ID"]
    ++ (match List.lookup (sliceDropLast K 7) fields with
        | some tv =>
          [indentS (depth + 1) ++ lit "\x22" ++ sliceDropLast K 7 ++ lit "\x22: \x22"
            ++ jsInterp tv ++ lit "\x22 // Translated text"]
        | none => [])
  else
    match h : jsGet fields K with
    | .arrv items =>
      [indentS (depth + 1) ++ lit "\x22" ++ K ++ lit "\x22:"]
      ++ fmtVal (.arrv items) (depth + 1) maxDepth
    | .objv fs =>
      [indentS (depth + 1) ++ lit "\x22" ++ K ++ lit "\x22:"]
      ++ fmtVal (.objv fs) (depth + 1) maxDepth
    | .strv str0 =>
      [indentS (depth + 1) ++ lit "\x22" ++ K ++ lit "\x22: \x22" ++ str0 ++ lit "\x22"]
    | .numv n => [indentS (depth + 1) ++ lit "\x22" ++ K ++ lit "\x22: " ++ numStr n]
    | .boolv b => [indentS (depth + 1) ++ lit "\x22" ++ K ++ lit "\x22: " ++ boolStr b]
    | .nullv => [indentS (depth + 1) ++ lit "\x22" ++ K ++ lit "\x22: null"]
termination_by (maxDepth - depth, sizeOf fields, 1)
decreasing_by
  · apply lex3_of
    rcases Nat.lt_or_ge depth maxDepth with hd | hd
    · exact Or.inl (by omega)
    · refine Or.inr ⟨by omega, ?_⟩
      rw [← h]
      rcases Nat.lt_or_ge (sizeOf (jsGet fields K)) (sizeOf fields) with h2 | h2
      · exact Or.inl h2
      · have := sizeOf_jsGet_le fields K
        exact Or.inr ⟨by omega, by omega⟩
  · apply lex3_of
    rcases Nat.lt_or_ge depth maxDepth with hd | hd
    · exact Or.inl (by omega)
    · refine Or.inr ⟨by omega, ?_⟩
      rw [← h]
      rcases Nat.lt_or_ge (sizeOf (jsGet fields K)) (sizeOf fields) with h2 | h2
      · exact Or.inl h2
      · have := sizeOf_jsGet_le fields K
        exact Or.inr ⟨by omega, by omega⟩

/-- The `sortedKeys.forEach` loop of `formatObject`'s object rendering:
companion text fields are skipped (contributing neither lines nor a comma),
every other key contributes its entry lines and a comma that is suppressed
when the next key is its companion. -/
def fmtPairs (keys : List Str) (fields : List (Str × JsonVal)) (depth maxDepth : Nat) : List Str :=
  match keys with
  | [] => []
  | key :: rest =>
    if (textBases fields).contains key then fmtPairs rest fields depth maxDepth
    else
      fmtEntryE key fields depth maxDepth ++ fmtCommaE key rest fields depth
      ++ fmtPairs rest fields depth maxDepth
termination_by (maxDepth - depth, sizeOf fields, keys.length + 2)
decreasing_by
  · exact lex3_of (Or.inr ⟨rfl, Or.inr ⟨rfl, by simp⟩⟩)
  · exact lex3_of (Or.inr ⟨rfl, Or.inr ⟨rfl, by omega⟩⟩)
  · exact lex3_of (Or.inr ⟨rfl, Or.inr ⟨rfl, by simp⟩⟩)
end

/-! ### ANSI colors (index.js `colors`) -/

def cReset : Str := lit "\x1b[0m"
def cBright : Str := lit "\x1b[1m"
def cDim : Str := lit "\x1b[2m"
def cRed : Str := lit "\x1b[31m"
def cGreen : Str := lit "\x1b[32m"
def cYellow : Str := lit "\x1b[33m"
def cBlue : Str := lit "\x1b[34m"
def cMagenta : Str := lit "\x1b[35m"
def cCyan : Str := lit "\x1b[36m"

/-! ### TypeScript emitter (index.js `generateTypeScriptDefinitions` and its
three generators).  One list element per `console.log` call. -/

/-- `data.Path ? data.Path.join('') : 'Unknown'`. -/
def pathName0 (data : ApiData) : Str :=
  match data.Path with
  | some ps => joinSep [] ps
  | none => lit "Unknown"

/-- `data.Path ? data.Path.join('/') : ''`. -/
def pathJoined (data : ApiData) : Str :=
  match data.Path with
  | some ps => joinSep (lit "/") ps
  | none => []

/-- The argument-type selection of index.js `generateProcedureTypes` /
`generateMethodTypes`: the name-pattern heuristic runs first and the explicit
`arg.type` is consulted only when no pattern matched. -/
def idxArgTsType (arg : FieldMeta) : Str :=
  if endsW arg.name (lit "__") then lit "string"
  else if arg.name = lit "erase" || startsW arg.name (lit "is_")
       || startsW arg.name (lit "has_") then lit "boolean"
  else if includesStr arg.name (lit "password") then lit "string"
  else if endsW arg.name (lit "_id") || includesStr arg.name (lit "Id") then lit "string"
  else if truthyS arg.type then mapToTsType arg.type arg
  else lit "any"

/-- One request-interface property line emitted for an argument. -/
def idxArgChunk (arg : FieldMeta) : Str :=
  lit "  " ++ arg.name ++ (if !arg.required then lit "?" else []) ++ lit ": "
  ++ idxArgTsType arg ++ lit ";"
  ++ (if truthyS arg.description then lit " // " ++ arg.description.getD [] else [])

/-- One `  * name: example,` line of the usage-example comment. -/
def idxExampleChunk (arg : FieldMeta) : Str :=
  lit "  * " ++ arg.name ++ lit ": " ++ getExampleValue arg.type ++ lit ","

/-- The `klbfw.rest` call line of the usage-example comment (static vs
instance form). -/
def idxUsageCall (iname path fname : Str) (static : Bool) : Str :=
  if static then
    lit " * const response = await klbfw.rest<" ++ iname ++ lit "Response>(\x27"
    ++ path ++ lit ":" ++ fname ++ lit "\x27, \x27POST\x27, request);"
  else
    lit " * const response = await klbfw.rest<" ++ iname ++ lit "Response>(\x27"
    ++ path ++ lit "/$\x7bid\x7d:" ++ fname ++ lit "\x27, \x27POST\x27, request);"

/-- index.js `generateProcedureTypes(data)`.  (The source dereferences
`procedure.name` through `pascalCase` and would throw on an absent name; the
model substitutes the empty string there, and no theorem below depends on
that case.) -/
def idxGenProcedureTypes (data : ApiData) (proc : ProcSchema) : List Str :=
  let pname := proc.name.getD []
  let iname := lit "I" ++ pathName0 data ++ pascalCaseIdx pname
  let args := proc.args.getD []
  [lit "/**\n * " ++ pname ++ lit " procedure interface\n */",
   lit "export interface " ++ iname ++ lit "Request \x7b"]
  ++ args.map idxArgChunk
  ++ [lit "\x7d\n"]
  ++ (if truthyS proc.return_type then
        [lit "export interface " ++ iname ++ lit "Response \x7b",
         lit "  // Return type: " ++ proc.return_type.getD [],
         lit "  data: any; // Replace with specific structure if known",
         lit "\x7d\n"]
      else [])
  ++ [lit "/**", lit " * Usage Example:", lit " * ", lit " * // TypeScript",
      lit " * const request: " ++ iname ++ lit "Request = \x7b"]
  ++ args.map idxExampleChunk
  ++ [lit " * \x7d;", lit " * ",
      idxUsageCall iname (pathJoined data) pname proc.static,
      lit " */"]

/-- The property lines emitted for one table field by index.js
`generateResourceTypes`, including the synthetic companion property for a
`_Text__` field. -/
def idxResourceFieldChunks (field : Str) (info : FieldMeta) : List Str :=
  [lit "  " ++ field ++ (if info.nullb = some false then [] else lit "?") ++ lit ": "
    ++ mapToTsType info.type info ++ lit ";"
    ++ (if truthyS info.validator then lit " // " ++ info.validator.getD []
        else if info.protect then lit " // protected"
        else [])]
  ++ (if endsW field (lit "_Text__") then
        [lit "  " ++ sliceDropLast field 7 ++ lit "?: string; // Auto-generated translated text field"]
      else [])

/-- index.js `generateResourceTypes(data)`. -/
def idxGenResourceTypes (data : ApiData) (table : TableSchema) : List Str :=
  let iname := lit "I" ++ pathName0 data
  [lit "/**\n * " ++ table.Name ++ lit " resource interface\n */",
   lit "export interface " ++ iname ++ lit " \x7b"]
  ++ (tableFields table).flatMap (fun p => idxResourceFieldChunks p.1 p.2)
  ++ [lit "\x7d\n"]
  ++ (match table.primary with
      | some primaryKeys =>
        if primaryKeys.length = 1 then
          let keyInfo := (List.lookup (primaryKeys.headD []) table.Struct).getD {}
          [lit "/**\n * ID type for " ++ table.Name ++ lit "\n */",
           lit "export type " ++ iname ++ lit "ID = "
             ++ mapToTsType keyInfo.type keyInfo ++ lit ";\n"]
        else if primaryKeys.length > 1 then
          [lit "/**\n * Composite ID type for " ++ table.Name ++ lit "\n */",
           lit "export interface " ++ iname ++ lit "ID \x7b"]
          ++ primaryKeys.map (fun k =>
               let keyInfo := (List.lookup k table.Struct).getD {}
               lit "  " ++ k ++ lit ": " ++ mapToTsType keyInfo.type keyInfo ++ lit ";")
          ++ [lit "\x7d\n"]
        else []
      | none => [])

/-- index.js `generateMethodTypes(data)`: one block per entry of `data.func`. -/
def idxGenMethodTypes (data : ApiData) (funcs : List ProcSchema) : List Str :=
  funcs.flatMap (fun func =>
    let fname := func.name.getD []
    let iname := lit "I" ++ pathName0 data ++ pascalCaseIdx fname
    let args := func.args.getD []
    [lit "/**\n * " ++ fname ++ lit " method interface"
       ++ (if func.static then lit " (static)" else []) ++ lit "\n */",
     lit "export interface " ++ iname ++ lit "Request \x7b"]
    ++ args.map idxArgChunk
    ++ [lit "\x7d\n"]
    ++ (if truthyS func.return_type then
          [lit "export interface " ++ iname ++ lit "Response \x7b",
           lit "  // Return type: " ++ func.return_type.getD [],
           lit "  data: any; // Replace with specific structure if known",
           lit "\x7d\n"]
        else [])
    ++ [lit "/**", lit " * Usage Example:", lit " * ", lit " * // TypeScript",
        lit " * const request: " ++ iname ++ lit "Request = \x7b"]
    ++ args.map idxExampleChunk
    ++ [lit " * \x7d;", lit " * ",
        idxUsageCall iname (pathJoined data) fname func.static,
        lit " */\n"])

/-- Truth of `info.type && (lower === 'datetime' || lower === 'timestamp')`. -/
def isDTtype (t : Option Str) : Bool :=
  match t with
  | some s => !s.isEmpty && (strLower s = lit "datetime" || strLower s = lit "timestamp")
  | none => false

/-- The datetime scan shared verbatim by index.js and api.js
`generateTypeScriptDefinitions`: table fields, then procedure args, then
method args (the sequential early-exit loops of the source are equivalent to
this disjunction). -/
def hasDateTimeFields (data : ApiData) : Bool :=
  (match data.table with
   | some t => (tableFields t).any (fun p => isDTtype p.2.type)
   | none => false)
  || (match data.procedure with
      | some proc =>
        match proc.args with
        | some args => args.any (fun a => isDTtype a.type)
        | none => false
      | none => false)
  || (match data.func with
      | some funcs =>
        funcs.any (fun f =>
          match f.args with
          | some args => args.any (fun a => isDTtype a.type)
          | none => false)
      | none => false)

/-- The shared KlbDateTime interface declaration (identical text in both
emitters; index.js prints it as one chunk ending in a newline). -/
def klbDateTimeBlock : Str :=
  lit "/**\n * KLB DateTime object structure\n */\nexport interface KlbDateTime \x7b\n  unix: number;    // Unix timestamp (seconds)\n  us: number;      // Microseconds part\n  iso: string;     // ISO formatted date string\n  tz: string;      // Timezone identifier\n  full: string;    // Full timestamp as string (seconds + microseconds)\n  unixms: string;  // Unix timestamp with milliseconds as string\n\x7d\n"

/-- `data.Path ? data.Path.join('/') : 'Unknown'` (shared by both emitters). -/
def pathOrUnknown (data : ApiData) : Str :=
  match data.Path with
  | some ps => joinSep (lit "/") ps
  | none => lit "Unknown"

/-- index.js `generateTypeScriptDefinitions(jsonData)`. -/
def idxGenerateTypeScriptDefinitions (j : JsonResponse) : List Str :=
  match j.data with
  | none => [cRed ++ lit "Error: No API data found in response" ++ cReset]
  | some data =>
    [lit "\n" ++ cBright ++ cBlue ++ lit "TypeScript definitions for:" ++ cReset
       ++ lit " " ++ cGreen ++ pathOrUnknown data ++ cReset ++ lit "\n"]
    ++ (if hasDateTimeFields data then [klbDateTimeBlock] else [])
    ++ (match data.procedure with
        | some proc => idxGenProcedureTypes data proc
        | none =>
          (match data.table with
           | some table => idxGenResourceTypes data table
           | none => [])
          ++ (match data.func with
              | some funcs => if funcs.length > 0 then idxGenMethodTypes data funcs else []
              | none => []))

/-! ### TypeScript emitter (src/api.js `generateTypeScriptDefinitions`)

Modelled with `useColors: false`, `markdownFormat: false` (the `format`
helper of `createFormatter` is then the identity).  The function prints a
header, optionally the KlbDateTime declaration, and finally the accumulated
`typeScript` string in a single `printOutput` call. -/

/-- The comment appended to a resource-interface property line by the api.js
emitter (`commentParts`, `; `-joined behind ` // `). -/
def apiFieldComment (field : Str) (info : FieldMeta) : Str :=
  let parts : List Str :=
    (if truthyS info.desc then [info.desc.getD []] else [])
    ++ (if info.key = some (lit "PRIMARY") then [lit "Primary key"] else [])
    ++ (if endsW field (lit "__") then [lit "Foreign key to " ++ sliceDropLast field 2] else [])
    ++ (if truthyS info.validator then [lit "Validator: " ++ info.validator.getD []] else [])
    ++ (match info.size with | some n => [lit "Size: " ++ numStr n] | none => [])
    ++ (if (info.type = some (lit "ENUM") || info.type = some (lit "SET"))
           && truthyL info.values then
          [lit "Values: " ++ joinSep (lit ", ") (info.values.getD [])]
        else [])
    ++ (match info.dflt with | some d => [lit "Default: " ++ d] | none => [])
  if parts.isEmpty then [] else lit " // " ++ joinSep (lit "; ") parts

/-- One property line of the api.js resource interface:
`  field: tsType | null;` plus comment. -/
def apiFieldLine (field : Str) (info : FieldMeta) : Str :=
  lit "  " ++ field ++ lit ": " ++ convertToTypeScriptType info.type field info
  ++ (if info.nullb = some false then [] else lit " | null")
  ++ lit ";" ++ apiFieldComment field info ++ lit "\n"

/-- The resource-interface portion of the api.js `typeScript` string. -/
def apiTablePart (data : ApiData) : Str :=
  match data.table with
  | some table =>
    let typeName := getTypeName (pathOrUnknown data)
    let description := orS data.description (orS data.desc (typeName ++ lit " object structure"))
    lit "/**\n * " ++ description ++ lit "\n */\nexport interface " ++ typeName ++ lit " \x7b\n"
    ++ ((tableFields table).map (fun p => apiFieldLine p.1 p.2)).flatten
    ++ lit "\x7d\n\n"
  | none => []

/-- One argument line of the api.js procedure params interface
(`convertToTypeScriptType` with its default `field`/`info` arguments, comment
from `arg.desc` only). -/
def apiProcArgLine (arg : FieldMeta) : Str :=
  lit "  " ++ arg.name ++ (if !arg.required then lit "?" else []) ++ lit ": "
  ++ convertToTypeScriptType arg.type [] {} ++ lit ";"
  ++ (if truthyS arg.desc then lit " // " ++ arg.desc.getD [] else []) ++ lit "\n"

/-- The procedure-params portion of the api.js `typeScript` string. -/
def apiProcPart (data : ApiData) : Str :=
  match data.procedure with
  | some proc =>
    let typeName := getTypeName (pathOrUnknown data)
    match proc.args with
    | some args =>
      if args.length > 0 then
        lit "/**\n * Request parameters for " ++ orS proc.name typeName
        ++ lit " procedure\n */\nexport interface " ++ typeName
        ++ (if truthyS proc.name then pascalCaseApi (proc.name.getD []) else [])
        ++ lit "Params \x7b\n"
        ++ (args.map apiProcArgLine).flatten
        ++ lit "\x7d\n\n"
      else []
    | none => []
  | none => []

/-- The name-pattern heuristic of the api.js method-params generator
(`inferredType`), applied only when the argument has no explicit type. -/
def apiInferredType (arg : FieldMeta) : Str :=
  if arg.name = lit "id" || endsW arg.name (lit "_id") then lit "string"
  else if endsW arg.name (lit "__") then lit "string"
  else if arg.name = lit "email" then lit "string"
  else if arg.name = lit "status" || arg.name = lit "type" then lit "string"
  else if arg.name = lit "page" || arg.name = lit "limit" || arg.name = lit "offset" then
    lit "number"
  else if arg.name = lit "options" || arg.name = lit "config" || arg.name = lit "meta" then
    lit "Record<string, any>"
  else if startsW arg.name (lit "is_") || startsW arg.name (lit "has_")
       || arg.name = lit "active" || arg.name = lit "enabled" then
    lit "boolean"
  else lit "any"

/-- One argument line of an api.js method params interface: the explicit
`arg.type` wins over the heuristic (`arg.type ? convertToTypeScriptType(arg.type) :
inferredType`). -/
def apiMethodArgLine (arg : FieldMeta) : Str :=
  let argDesc := orS arg.description (orS arg.desc [])
  lit "  " ++ arg.name ++ (if !arg.required then lit "?" else []) ++ lit ": "
  ++ (if truthyS arg.type then convertToTypeScriptType arg.type [] {} else apiInferredType arg)
  ++ lit ";" ++ (if argDesc.isEmpty then [] else lit " // " ++ argDesc) ++ lit "\n"

/-- The method-params portion of the api.js `typeScript` string. -/
def apiMethodPart (data : ApiData) : Str :=
  match data.func with
  | some funcs =>
    if funcs.length > 0 then
      let typeName := getTypeName (pathOrUnknown data)
      (funcs.map (fun func =>
        match func.args with
        | some args =>
          if args.length > 0 then
            let description := orS func.description (orS func.desc
              (lit "Request parameters for " ++ typeName ++ lit "." ++ interpS func.name
                ++ lit " method"))
            let returnDesc :=
              if truthyS func.return_description then
                lit "\n\n@returns " ++ func.return_description.getD []
              else []
            lit "/**\n * " ++ description ++ returnDesc ++ lit "\n */\nexport interface "
            ++ typeName ++ pascalCaseApi (func.name.getD []) ++ lit "Params \x7b\n"
            ++ (args.map apiMethodArgLine).flatten
            ++ lit "\x7d\n\n"
          else []
        | none => [])).flatten
    else []
  | none => []

/-- The full `typeScript` string accumulated by api.js
`generateTypeScriptDefinitions` (table interface, then procedure params, then
method params). -/
def apiTsBody (data : ApiData) : Str :=
  apiTablePart data ++ apiProcPart data ++ apiMethodPart data

/-- The api.js KlbDateTime output chunk (`printOutput(klbDateTime + "\n")`). -/
def apiKlbChunk : Str := klbDateTimeBlock ++ lit "\n"

/-- api.js `generateTypeScriptDefinitions(jsonData, options)` with colors and
markdown off: the list of `printOutput` chunks. -/
def apiGenerateTypeScriptDefinitions (j : JsonResponse) : List Str :=
  match j.data with
  | none => [lit "Error: No API data found in response"]
  | some data =>
    [lit "\nTypeScript definitions for: " ++ pathOrUnknown data ++ lit "\n"]
    ++ (if hasDateTimeFields data then [apiKlbChunk] else [])
    ++ [apiTsBody data]

/-! ### Description formatter (src/api.js `formatJsonResponse`)

Modelled with `useColors: false`, `markdownFormat: false`.  Sections appear in
source order: path, type, class description, access level, allowed methods,
allowed object methods, subresources, table structure, procedure, methods. -/

/-- Everything api.js `formatJsonResponse` prints before the table section. -/
def apiFmtPreamble (data : ApiData) : List Str :=
  (match data.Path with
   | some ps => [lit "\nAPI Path: " ++ joinSep (lit "/") ps]
   | none => [])
  ++ (if truthyS data.typ then [lit "\nType: " ++ data.typ.getD []] else [])
  ++ (if truthyS data.description then [lit "\nClass Description:", data.description.getD []]
      else if truthyS data.desc then [lit "\nDescription:", data.desc.getD []]
      else [])
  ++ (if truthyS data.access then [lit "\nAccess Level: " ++ data.access.getD []] else [])
  ++ (match data.allowed_methods with
      | some ams =>
        if ams.length > 0 then [lit "\nAllowed Methods: " ++ joinSep (lit ", ") ams] else []
      | none => [])
  ++ (match data.allowed_methods_object with
      | some ams =>
        if ams.length > 0 then [lit "\nAllowed Object Methods: " ++ joinSep (lit ", ") ams]
        else []
      | none => [])
  ++ (match data.prefixes with
      | some ps =>
        if ps.length > 0 then
          [lit "\nAvailable Subresources:\n"]
          ++ ps.map (fun p =>
               lit "  " ++ padEnd p.name 20 ++ lit " "
               ++ (match p.methods with | some ms => joinSep (lit ", ") ms | none => []))
        else []
      | none => [])

/-- One row of the api.js table-structure listing. -/
def apiTableFieldRow (field : Str) (info : FieldMeta) : Str :=
  let expandedType := info.type.getD []
    ++ (if truthyL info.values then
          lit " (" ++ joinSep (lit ", ") (info.values.getD []) ++ lit ")"
        else [])
  let fieldDetails :=
    (if info.key = some (lit "PRIMARY") then lit " (Primary Key)" else [])
    ++ (if endsW field (lit "__") then lit " (Foreign Key)" else [])
  let descStr := info.desc.getD []
  let fullDesc :=
    if fieldDetails.isEmpty then descStr
    else if descStr.isEmpty then fieldDetails
    else descStr ++ lit " " ++ fieldDetails
  lit "  " ++ padEnd field 20 ++ lit " " ++ padEnd expandedType 20 ++ lit " "
  ++ padEnd (match info.size with | some n => numStr n | none => []) 6 ++ lit " "
  ++ padEnd (if info.nullb = some false then lit "Yes" else lit "No") 10 ++ lit " "
  ++ padEnd (info.validator.getD []) 12 ++ lit " " ++ fullDesc

/-- The api.js table-structure section (structure rows, primary key,
indexes). -/
def apiTableSection (data : ApiData) : List Str :=
  match data.table with
  | some table =>
    [lit "\nTable Structure:\n"]
    ++ (tableFields table).map (fun p => apiTableFieldRow p.1 p.2)
    ++ (match table.primary with
        | some pk => [lit "\n  Primary Key: " ++ joinSep (lit ", ") pk]
        | none => [])
    ++ (match table.keysMeta with
        | some ks =>
          if ks.length > 0 then
            [lit "\n  Indexes:"]
            ++ ks.map (fun kv =>
                 let keyType :=
                   if startsW kv.1 (lit "@") then lit "Unique"
                   else match kv.2 with
                     | .strv s => if s = lit "FOREIGN" then lit "Foreign Key" else lit "Index"
                     | .arrv _ => lit "Index"
                 let keyFields := match kv.2 with
                   | .arrv l => joinSep (lit ", ") l
                   | .strv s => s
                 lit "    " ++ padEnd kv.1 20 ++ lit " " ++ padEnd keyType 15 ++ lit " " ++ keyFields)
          else []
        | none => [])
  | none => []

/-- The api.js procedure section. -/
def apiProcSection (proc : ProcSchema) : List Str :=
  [lit "\nProcedure: " ++ proc.name.getD []]
  ++ (if truthyS proc.description then [lit "\n" ++ proc.description.getD []]
      else if truthyS proc.desc then [lit "\n" ++ proc.desc.getD []]
      else [])
  ++ (if truthyS proc.return_description then
        [lit "\nReturns: " ++ proc.return_description.getD []]
      else [])
  ++ (match proc.args with
      | some args =>
        if args.length > 0 then
          [lit "\nArguments:\n"]
          ++ args.map (fun a =>
               lit "  " ++ padEnd a.name 20 ++ lit " " ++ padEnd (a.type.getD []) 15 ++ lit " "
               ++ padEnd (if a.required then lit "Yes" else lit "No") 10 ++ lit " "
               ++ orS a.description (orS a.desc []))
        else []
      | none => [])

/-- The api.js available-methods section (one blank chunk after each
method). -/
def apiFuncSection (data : ApiData) : List Str :=
  match data.func with
  | some funcs =>
    if funcs.length > 0 then
      [lit "\nAvailable Methods:\n"]
      ++ funcs.flatMap (fun f =>
        [lit "  " ++ (if f.static then lit "static " else []) ++ f.name.getD [] ++ lit "()"]
        ++ (if truthyS f.description then [lit "    " ++ f.description.getD []]
            else if truthyS f.desc then [lit "    " ++ f.desc.getD []]
            else [])
        ++ (if truthyS f.return_description then
              [lit "    Returns: " ++ f.return_description.getD []]
            else [])
        ++ (match f.args with
            | some args =>
              if args.length > 0 then
                [lit "    Arguments:"]
                ++ args.map (fun a =>
                     lit "      " ++ padEnd a.name 20 ++ lit " " ++ padEnd (a.type.getD []) 15
                     ++ lit " " ++ padEnd (if a.required then lit "Yes" else lit "No") 10
                     ++ lit " " ++ orS a.description (orS a.desc []))
              else []
            | none => [])
        ++ [[]])
    else []
  | none => []

/-- api.js `formatJsonResponse(jsonData, options)` with colors and markdown
off: the full chunk list.  Note that the subresource and table sections
precede the procedure section and the methods section follows it. -/
def apiFormatJsonResponse (j : JsonResponse) : List Str :=
  match j.data with
  | none => [lit "Error: No API data found in response"]
  | some data =>
    apiFmtPreamble data
    ++ apiTableSection data
    ++ (match data.procedure with
        | some proc => apiProcSection proc
        | none => [])
    ++ apiFuncSection data

/-! ### Description formatter (index.js `formatJsonResponse`)

This variant prints directly through `console.log` with hard-coded ANSI
colors (it takes no presentation options). -/

/-- The verb coloring of the methods line. -/
def idxMethodColor (m : Str) : Str :=
  (if m = lit "GET" then cGreen
   else if m = lit "POST" then cYellow
   else if m = lit "DELETE" then cRed
   else if m = lit "PATCH" || m = lit "PUT" then cMagenta
   else cCyan) ++ m ++ cReset

/-- Sample argument values of the JavaScript-call usage examples
(`switch (arg.type)`). -/
def idxSampleJs (t : Option Str) : Str :=
  match t with
  | some s =>
    if s = lit "bool" then lit "true"
    else if s = lit "number" then lit "123"
    else if s = lit "string" then lit "\x22value\x22"
    else lit "\x22...\x22"
  | none => lit "\x22...\x22"

/-- Sample argument values of the URL-format usage examples. -/
def idxSampleUrl (t : Option Str) : Str :=
  match t with
  | some s =>
    if s = lit "bool" then lit "true"
    else if s = lit "number" then lit "123"
    else if s = lit "string" then lit "value"
    else lit "..."
  | none => lit "..."

/-- Everything index.js `formatJsonResponse` prints before dispatching on the
endpoint kind: path, inferred type tag, methods, access, description. -/
def idxFmtPreamble (data : ApiData) : List Str :=
  (match data.Path with
   | some ps =>
     [lit "\n" ++ cBright ++ cGreen ++ lit "API:" ++ cReset ++ lit " " ++ cBlue
        ++ joinSep (lit "/") ps ++ cReset]
   | none => [])
  ++ (if data.procedure.isSome then [cBright ++ lit "Type:" ++ cReset ++ lit " Procedure"]
      else if data.table.isSome then [cBright ++ lit "Type:" ++ cReset ++ lit " Resource"]
      else if truthyL data.prefixes || truthyL data.func then
        [cBright ++ lit "Type:" ++ cReset ++ lit " Collection"]
      else [])
  ++ (match data.allowed_methods with
      | some ams =>
        [cBright ++ lit "Methods:" ++ cReset ++ lit " "
           ++ joinSep (lit ", ") (ams.map idxMethodColor)]
      | none => [])
  ++ (if truthyS data.access then
        [cBright ++ lit "Access:" ++ cReset ++ lit " " ++ data.access.getD []]
      else [])
  ++ (if truthyS data.description then
        [lit "\n" ++ cBright ++ lit "Description:" ++ cReset,
         cDim ++ data.description.getD [] ++ cReset]
      else [])

/-- The argument lines of the index.js procedure section. -/
def idxProcArgLines (a : FieldMeta) : List Str :=
  [lit "  " ++ cYellow ++ a.name ++ cReset
     ++ (if truthyS a.type then lit " (" ++ a.type.getD [] ++ lit ")" else [])
     ++ (if a.required then lit " " ++ cRed ++ lit "*" ++ cReset else [])]
  ++ (if truthyS a.description then [lit "    " ++ cDim ++ a.description.getD [] ++ cReset]
      else [])

/-- The index.js procedure section (after it the source returns, emitting
nothing else).  The source dereferences `data.allowed_methods.includes` here
and would throw when `allowed_methods` is absent while `Path` is present; the
model renders no URL example in that case, and the theorems below assume the
non-throwing inputs. -/
def idxProcSection (data : ApiData) (proc : ProcSchema) : List Str :=
  [lit "\n" ++ cBright ++ cBlue ++ lit "Procedure Details:" ++ cReset,
   cCyan ++ lit "Name:" ++ cReset ++ lit " " ++ interpS proc.name,
   cCyan ++ lit "Type:" ++ cReset ++ lit " "
     ++ (if proc.static then lit "Static" else lit "Instance") ++ lit " Method"]
  ++ (if truthyS proc.description then
        [lit "\n" ++ cBright ++ lit "Description:" ++ cReset,
         cDim ++ proc.description.getD [] ++ cReset]
      else [])
  ++ (match data.Path with
      | some ps =>
        let pathStr := joinSep (lit "/") ps
        let args := proc.args.getD []
        let argPairs := joinSep (lit ", ") (args.map (fun a => a.name ++ lit ": " ++ idxSampleJs a.type))
        [lit "\n" ++ cBright ++ lit "Usage:" ++ cReset,
         cDim ++ lit "# JavaScript" ++ cReset,
         (if proc.static then
            lit "klbfw.rest(\x27" ++ pathStr ++ lit ":" ++ interpS proc.name
              ++ lit "\x27, \x27POST\x27, \x7b" ++ argPairs ++ lit "\x7d)"
          else
            lit "klbfw.rest(\x27" ++ pathStr ++ lit "/$\x7bid\x7d:" ++ interpS proc.name
              ++ lit "\x27, \x27POST\x27, \x7b" ++ argPairs ++ lit "\x7d)")]
        ++ (if (data.allowed_methods.getD []).contains (lit "GET") && args.length > 0 then
              let queryParams :=
                joinSep (lit "&") (args.map (fun a => a.name ++ lit "=" ++ idxSampleUrl a.type))
              [lit "\n" ++ cDim ++ lit "# URL Format" ++ cReset,
               (if proc.static then
                  lit "GET /_rest/" ++ pathStr ++ lit ":" ++ interpS proc.name ++ lit "?" ++ queryParams
                else
                  lit "GET /_rest/" ++ pathStr ++ lit "/$\x7bid\x7d:" ++ interpS proc.name
                    ++ lit "?" ++ queryParams)]
            else [])
      | none => [])
  ++ (match proc.args with
      | some args =>
        if args.length > 0 then
          [lit "\n" ++ cBright ++ lit "Arguments:" ++ cReset] ++ args.flatMap idxProcArgLines
        else [lit "\n" ++ cDim ++ lit "No arguments required" ++ cReset]
      | none => [lit "\n" ++ cDim ++ lit "No arguments required" ++ cReset])
  ++ (if truthyS proc.return_description then
        [lit "\n" ++ cBright ++ lit "Returns:" ++ cReset,
         lit "  " ++ cDim ++ proc.return_description.getD [] ++ cReset]
      else [])

/-- Translatable-text base names of a table, collected from the field names
(`fields.forEach`, no value check here). -/
def idxTextBasesT (table : TableSchema) : List Str :=
  ((tableFields table).filter (fun p => endsW p.1 (lit "_Text__"))).map
    (fun p => sliceDropLast p.1 7)

/-- One field entry of the index.js all-fields listing. -/
def idxFieldLines (table : TableSchema) (field : Str) (info : FieldMeta) : List Str :=
  [lit "  " ++ cYellow ++ field ++ cReset
     ++ (if truthyS info.type then
           lit " (" ++ info.type.getD []
           ++ (if truthyN info.size then lit "[" ++ numStr (info.size.getD 0) ++ lit "]" else [])
           ++ lit ")"
         else [])
     ++ (if info.nullb = some false then lit " " ++ cRed ++ lit "*" ++ cReset else [])
     ++ (if endsW field (lit "_Text__") then
           lit " " ++ cDim ++ lit "(translatable text ID)" ++ cReset
         else if (idxTextBasesT table).contains field then
           lit " " ++ cDim ++ lit "(auto-generated translated text)" ++ cReset
         else [])]
  ++ (if truthyS info.description then [lit "    " ++ cDim ++ info.description.getD [] ++ cReset]
      else [])
  ++ (if endsW field (lit "_Text__") then
        [lit "    " ++ cDim
           ++ lit "Translatable text ID. The translated text will be available in the \x27"
           ++ sliceDropLast field 7 ++ lit "\x27 field." ++ cReset]
      else [])

/-- The index.js resource-details section. -/
def idxTableSection (table : TableSchema) : List Str :=
  [lit "\n" ++ cBright ++ cBlue ++ lit "Resource Details:" ++ cReset,
   cCyan ++ lit "Name:" ++ cReset ++ lit " " ++ table.Name,
   cCyan ++ lit "Fields:" ++ cReset ++ lit " " ++ natStr (tableFields table).length ++ lit " fields"]
  ++ (match table.primary with
      | some pk => [cCyan ++ lit "Primary Key:" ++ cReset ++ lit " " ++ joinSep (lit ", ") pk]
      | none => [])
  ++ (if (tableFields table).length > 0 then
        [lit "\n" ++ cBright ++ lit "All Fields:" ++ cReset]
        ++ (tableFields table).flatMap (fun p => idxFieldLines table p.1 p.2)
      else [])

/-- The index.js available-methods section. -/
def idxFuncSection (data : ApiData) (funcs : List ProcSchema) : List Str :=
  [lit "\n" ++ cBright ++ cBlue ++ lit "Available Methods:" ++ cReset]
  ++ funcs.flatMap (fun f =>
    [lit "  " ++ cGreen ++ interpS f.name ++ cReset ++ (if f.static then lit " (static)" else [])]
    ++ (if truthyS f.description then [lit "    " ++ cDim ++ f.description.getD [] ++ cReset]
        else [])
    ++ (match f.args with
        | some args =>
          if args.length > 0 then
            [lit "    " ++ cBright ++ lit "Arguments:" ++ cReset]
            ++ args.flatMap (fun a =>
                 [lit "      " ++ cYellow ++ a.name ++ cReset
                    ++ (if truthyS a.type then lit " (" ++ a.type.getD [] ++ lit ")" else [])
                    ++ (if a.required then lit " " ++ cRed ++ lit "*" ++ cReset else [])]
                 ++ (if truthyS a.description then
                       [lit "        " ++ cDim ++ a.description.getD [] ++ cReset]
                     else []))
          else []
        | none => [])
    ++ (if truthyS f.return_type then
          [lit "    " ++ cDim ++ lit "Returns: " ++ f.return_type.getD [] ++ cReset]
        else [])
    ++ (if truthyS f.return_description then
          [lit "    " ++ cDim ++ lit "Return Description: " ++ f.return_description.getD [] ++ cReset]
        else [])
    ++ (match data.Path with
        | some ps =>
          let pathStr := joinSep (lit "/") ps
          let args := f.args.getD []
          let argPairs := joinSep (lit ", ") (args.map (fun a => a.name ++ lit ": " ++ idxSampleJs a.type))
          [lit "    " ++ cBright ++ lit "Usage:" ++ cReset,
           (if f.static then
              lit "    " ++ cDim ++ lit "klbfw.rest(\x27" ++ pathStr ++ lit ":" ++ interpS f.name
                ++ lit "\x27, \x27POST\x27, \x7b" ++ argPairs ++ lit "\x7d)" ++ cReset
            else
              lit "    " ++ cDim ++ lit "klbfw.rest(\x27" ++ pathStr ++ lit "/$\x7bid\x7d:"
                ++ interpS f.name ++ lit "\x27, \x27POST\x27, \x7b" ++ argPairs ++ lit "\x7d)" ++ cReset)]
        | none => [])
    ++ [lit "\n"])

/-! ### Sub-resource grouping (index.js endpoint listing and
`describeRootObjects`) -/

/-- `prefix.name.charAt(0).toUpperCase()` (the empty string for an empty
name). -/
def firstUpperKey (name : Str) : Str :=
  match name with
  | [] => []
  | c :: _ => [c.toUpper]

/-- Add one entry to the letter groups, preserving first-occurrence group
order and source order within a group. -/
def insertGroup : List (Str × List FieldMeta) → Str → FieldMeta → List (Str × List FieldMeta)
  | [], k, p => [(k, [p])]
  | (k0, l) :: rest, k, p =>
    if k0 = k then (k0, l ++ [p]) :: rest
    else (k0, l) :: insertGroup rest k p

/-- The `groups` object built by both listing variants: group each entry
under the uppercased first character of its name. -/
def buildGroups (ps : List FieldMeta) : List (Str × List FieldMeta) :=
  ps.foldl (fun acc p => insertGroup acc (firstUpperKey p.name) p) []

/-- `groups[letter]` (empty when the letter has no group). -/
def groupEntries (groups : List (Str × List FieldMeta)) (letter : Str) : List FieldMeta :=
  (List.lookup letter groups).getD []

/-- The sorted letter list `Object.keys(groups).sort()`. -/
def sortedLetters (ps : List FieldMeta) : List Str :=
  sortByCmp localeCmp ((buildGroups ps).map Prod.fst)

/-- The index.js endpoint sub-endpoints section (entries of a letter joined
on one line, in source order). -/
def idxPrefixSection (ps : List FieldMeta) : List Str :=
  if ps.length > 0 then
    [lit "\n" ++ cBright ++ cBlue ++ lit "Sub-endpoints:" ++ cReset]
    ++ (sortedLetters ps).map (fun letter =>
         lit "  " ++ cBright ++ letter ++ cReset ++ lit ": "
         ++ joinSep (lit ", ")
              ((groupEntries (buildGroups ps) letter).map (fun e => cGreen ++ e.name ++ cReset)))
  else []

/-- index.js `formatJsonResponse(jsonData, options)`: the full chunk list.
When a procedure is present the function returns immediately after the
procedure section. -/
def idxFormatJsonResponse (j : JsonResponse) : List Str :=
  match j.data with
  | none => [cRed ++ lit "Error: No API data found in response" ++ cReset]
  | some data =>
    idxFmtPreamble data
    ++ (match data.procedure with
        | some proc => idxProcSection data proc
        | none =>
          (match data.table with | some t => idxTableSection t | none => [])
          ++ (match data.func with
              | some funcs => if funcs.length > 0 then idxFuncSection data funcs else []
              | none => [])
          ++ (match data.prefixes with | some ps => idxPrefixSection ps | none => []))

/-- The per-letter entry sort of `describeRootObjects`
(`sort((a, b) => a.name.localeCompare(b.name))`). -/
def sortEntriesByName (entries : List FieldMeta) : List FieldMeta :=
  sortByCmp (fun a b => localeCmp a.name b.name) entries

/-- The rendering part of index.js `describeRootObjects` (colors and markdown
off), applied to the `prefix` list of a successfully parsed root response;
the network transport around it is outside the model.  Groups are the same as
the endpoint listing's, but entries are sorted alphabetically within each
letter and printed one per line. -/
def rootListing (ps : List FieldMeta) : List Str :=
  [lit "\nAvailable API Objects:\n"]
  ++ (sortedLetters ps).flatMap (fun letter =>
       [lit "  " ++ letter]
       ++ (sortEntriesByName (groupEntries (buildGroups ps) letter)).map (fun e =>
            lit "    " ++ e.name
            ++ (if truthyS e.description then lit " - " ++ e.description.getD [] else []))
       ++ [[]])
  ++ [lit "Run with a specific API path to get more details about an object.",
      lit "Example: npx @karpeleslab/klbfw-describe User"]

/-! ## Theorems -/

/-- The field metadata carries a validator from the recognized semantic set
(`uuid`, `email`, `url`, `phone`, `password`, `login`, `language`). -/
def validatorRecognized (info : FieldMeta) : Bool :=
  match info.validator with
  | some v => (validatorMapLookup v).isSome
  | none => false

theorem validatorMapLookup_eq_string (v x : Str)
    (h : validatorMapLookup v = some x) : x = lit "string" := by
  unfold validatorMapLookup at h
  split_ifs at h <;> simp_all

/-! ### C1 -/

/-- Counterexample to C1 as stated: api.js's `convertToTypeScriptType` (one of
the two type mappers the claim covers) ignores the recognized validator
`email` and maps a field with validator `email` and type `int` to `number`,
not `string`. -/
theorem claim_C1_counterexample :
    convertToTypeScriptType (some (lit "int")) [] { validator := some (lit "email") }
      = lit "number"
    ∧ (lit "number" : Str) ≠ lit "string" := by
  constructor
  · decide
  · decide

/-- C1 (amended): index.js's `mapToTsType` returns `string` for every
recognized validator whenever a non-empty source type is given (with an
absent or empty source type it returns `any` before consulting the
validator); api.js's `convertToTypeScriptType` has no such validator rule —
only `uuid` is special-cased — so validator `email` with type `int` maps to
`number` there. -/
theorem claim_C1 :
    (∀ (apiType : Option Str) (info : FieldMeta),
       truthyS apiType = true → validatorRecognized info = true →
       mapToTsType apiType info = lit "string")
    ∧ (∀ info : FieldMeta, mapToTsType none info = lit "any")
    ∧ (∀ info : FieldMeta, mapToTsType (some []) info = lit "any")
    ∧ convertToTypeScriptType (some (lit "int")) [] { validator := some (lit "email") }
        = lit "number" := by
  refine ⟨?_, fun _ => rfl, fun _ => rfl, by decide⟩
  intro apiType info ht hv
  rcases apiType with _ | s
  · simp [truthyS] at ht
  · simp only [truthyS, Bool.not_eq_true'] at ht
    rcases hval : info.validator with _ | v
    · simp [validatorRecognized, hval] at hv
    · rcases hm : validatorMapLookup v with _ | m
      · simp [validatorRecognized, hval, hm] at hv
      · have hms := validatorMapLookup_eq_string v m hm
        subst hms
        simp only [mapToTsType, ht, Bool.false_eq_true, if_false, hval, hm]

/-- Witness for C1's amended theorem at validator `email`, type `int`. -/
theorem claim_C1_witness :
    (truthyS (some (lit "int")) = true
      ∧ validatorRecognized { validator := some (lit "email") } = true)
    ∧ mapToTsType (some (lit "int")) { validator := some (lit "email") } = lit "string" :=
  ⟨⟨by decide, by decide⟩,
   claim_C1.1 (some (lit "int")) { validator := some (lit "email") } (by decide) (by decide)⟩

/-! ### C7 -/

/-- Counterexample to C7 as stated: in index.js's request-parameter
generators the name heuristic beats the explicit type.  The argument
`user__ : int` (explicit non-empty type `int`) is emitted as `string` — the
foreign-key name pattern — although the type mapper translates `int` to
`number`. -/
theorem claim_C7_counterexample :
    idxArgChunk { name := lit "user__", type := some (lit "int"), required := true }
      = lit "  user__: string;"
    ∧ mapToTsType (some (lit "int")) { name := lit "user__", type := some (lit "int"), required := true }
        = lit "number"
    ∧ (lit "  user__: string;" : Str) ≠ lit "  user__: number;" := by
  refine ⟨by decide, by decide, by decide⟩

/-- C7 (amended): in api.js's emitter an explicit type always wins — method
arguments consult the name heuristic only when `arg.type` is absent/empty,
and procedure arguments never use the heuristic at all; in index.js's
generators the name patterns run first, so the explicit type is consulted
only when no name pattern matches (an explicitly typed `user__` argument is
still emitted as `string`). -/
theorem claim_C7 :
    (∀ arg : FieldMeta, truthyS arg.type = true →
       apiMethodArgLine arg =
         lit "  " ++ arg.name ++ (if !arg.required then lit "?" else []) ++ lit ": "
         ++ convertToTypeScriptType arg.type [] {} ++ lit ";"
         ++ (if (orS arg.description (orS arg.desc [])).isEmpty then []
             else lit " // " ++ orS arg.description (orS arg.desc [])) ++ lit "\n")
    ∧ (∀ arg : FieldMeta,
       apiProcArgLine arg =
         lit "  " ++ arg.name ++ (if !arg.required then lit "?" else []) ++ lit ": "
         ++ convertToTypeScriptType arg.type [] {} ++ lit ";"
         ++ (if truthyS arg.desc then lit " // " ++ arg.desc.getD [] else []) ++ lit "\n")
    ∧ (∀ arg : FieldMeta, truthyS arg.type = true →
       endsW arg.name (lit "__") = true → idxArgTsType arg = lit "string")
    ∧ (∀ arg : FieldMeta, truthyS arg.type = true →
       endsW arg.name (lit "__") = false →
       (arg.name = lit "erase") = False →
       startsW arg.name (lit "is_") = false →
       startsW arg.name (lit "has_") = false →
       includesStr arg.name (lit "password") = false →
       endsW arg.name (lit "_id") = false →
       includesStr arg.name (lit "Id") = false →
       idxArgTsType arg = mapToTsType arg.type arg) := by
  refine ⟨?_, fun arg => rfl, ?_, ?_⟩
  · intro arg ht
    simp only [apiMethodArgLine, ht, if_true]
  · intro arg ht he
    simp only [idxArgTsType, he, if_true]
  · intro arg ht he herase his hhas hpw hid hId
    simp only [idxArgTsType, he, herase, his, hhas, hpw, hid, hId, ht, Bool.false_eq_true,
      if_false, Bool.or_self, if_true, eq_self_iff_true]
    simp

/-- Witness for C7's amended theorem: an explicitly typed method argument in
api.js uses the mapper's translation, and an untainted name in index.js does
too. -/
theorem claim_C7_witness :
    (truthyS (some (lit "int")) = true
      ∧ apiMethodArgLine { name := lit "amount", type := some (lit "int"), required := true }
          = lit "  amount: number;\n")
    ∧ idxArgTsType { name := lit "amount", type := some (lit "int"), required := true }
        = mapToTsType (some (lit "int")) { name := lit "amount", type := some (lit "int"), required := true } := by
  constructor
  · constructor
    · decide
    · have h := claim_C7.1 { name := lit "amount", type := some (lit "int"), required := true }
        (by decide)
      rw [h]
      decide
  · exact claim_C7.2.2.2 { name := lit "amount", type := some (lit "int"), required := true }
      (by decide) (by decide) (by decide) (by decide) (by decide) (by decide) (by decide)
      (by decide)

/-! ### C9 -/

theorem getLast?_of_ne_nil {α : Type} (l : List α) (d : α) (h : l ≠ []) :
    l.getLast? = some (l.getLastD d) := by
  rw [List.getLastD_eq_getLast?]
  cases h2 : l.getLast? with
  | none => exact absurd (List.getLast?_eq_none_iff.mp h2) h
  | some x => rfl

theorem dropLast_of_length_one {α : Type} (l : List α) (h : l.length = 1) :
    l.dropLast = [] := by
  cases l with
  | nil => simp at h
  | cons x xs =>
    cases xs with
    | nil => rfl
    | cons y ys => simp at h

/-- Counterexample to C9 as stated: the `getTypeName` variant of the
historical source file (part_003), also cited by the claim, has no
"combine the last two segments" branch — for the nested alphabetic path
`Content/Cms` it returns `Cms`, while api.js's current `getTypeName` returns
`ContentCms`. -/
theorem claim_C9_counterexample :
    getTypeNameOld (lit "Content/Cms") = lit "Cms"
      ∧ getTypeName (lit "Content/Cms") = lit "ContentCms"
      ∧ (lit "Cms" : Str) ≠ lit "ContentCms" := by
  refine ⟨by decide, by decide, by decide⟩

/-- C9 (amended): in api.js's `getTypeName` the derived type name uses the
portion of the last path segment before a `:` when one is present; falls back
to the second-to-last segment (or the `ApiObject` placeholder for a
single-segment path) when the last segment contains a non-alphabetic
character; and for a nested path with a plain alphabetic last segment
combines exactly the last two segments into the PascalCase name.  The older
variant in the historical source file shares the first branches but has no
combine step: a plain alphabetic last segment is always PascalCased alone,
regardless of how many segments the path has. -/
theorem claim_C9 :
    (∀ apiPath : Str, apiPath.isEmpty = false →
       ((apiPath.splitOn '/').getLastD []).contains ':' = true →
       getTypeName apiPath =
         pascalCaseApi (((apiPath.splitOn '/').getLastD []).takeWhile (fun c => c ≠ ':')))
    ∧ (∀ apiPath : Str, apiPath.isEmpty = false →
       ((apiPath.splitOn '/').getLastD []).contains ':' = false →
       (∃ c ∈ (apiPath.splitOn '/').getLastD [], isAsciiLetter c = false) →
       (apiPath.splitOn '/').length = 1 →
       getTypeName apiPath = lit "ApiObject")
    ∧ (∀ apiPath : Str, apiPath.isEmpty = false →
       ((apiPath.splitOn '/').getLastD []).contains ':' = false →
       (∃ c ∈ (apiPath.splitOn '/').getLastD [], isAsciiLetter c = false) →
       2 ≤ (apiPath.splitOn '/').length →
       ((apiPath.splitOn '/').dropLast).getLastD [] ≠ [] →
       getTypeName apiPath = pascalCaseApi (((apiPath.splitOn '/').dropLast).getLastD []))
    ∧ (∀ apiPath : Str, apiPath.isEmpty = false →
       ((apiPath.splitOn '/').getLastD []).contains ':' = false →
       (∀ c ∈ (apiPath.splitOn '/').getLastD [], isAsciiLetter c = true) →
       2 ≤ (apiPath.splitOn '/').length →
       getTypeName apiPath =
         pascalCaseApi (((apiPath.splitOn '/').dropLast).getLastD []
           ++ (apiPath.splitOn '/').getLastD []))
    ∧ (∀ apiPath : Str, apiPath.isEmpty = false →
       ((apiPath.splitOn '/').getLastD []).contains ':' = false →
       (∀ c ∈ (apiPath.splitOn '/').getLastD [], isAsciiLetter c = true) →
       getTypeNameOld apiPath = pascalCaseApi ((apiPath.splitOn '/').getLastD [])) := by
  refine ⟨?_, ?_, ?_, ?_, ?_⟩
  · intro apiPath he hc
    simp only [getTypeName, he, Bool.false_eq_true, if_false, hc, if_true]
  · intro apiPath he hc hex hlen
    have hdrop : (apiPath.splitOn '/').dropLast = [] :=
      dropLast_of_length_one _ hlen
    have hany : ((apiPath.splitOn '/').getLastD []).any (fun c => !isAsciiLetter c) = true := by
      rw [List.any_eq_true]
      obtain ⟨c, hmem, hf⟩ := hex
      exact ⟨c, hmem, by simp [hf]⟩
    simp only [getTypeName, he, Bool.false_eq_true, if_false, hc, hany, if_true, hdrop,
      List.getLast?_nil]
  · intro apiPath he hc hex hlen hne
    have hany : ((apiPath.splitOn '/').getLastD []).any (fun c => !isAsciiLetter c) = true := by
      rw [List.any_eq_true]
      obtain ⟨c, hmem, hf⟩ := hex
      exact ⟨c, hmem, by simp [hf]⟩
    have hdne : (apiPath.splitOn '/').dropLast ≠ [] := by
      intro hcon
      have := List.length_dropLast (apiPath.splitOn '/')
      rw [hcon] at this
      simp at this
      omega
    have hlast := getLast?_of_ne_nil ((apiPath.splitOn '/').dropLast) ([] : Str) hdne
    have hemp : (((apiPath.splitOn '/').dropLast).getLastD ([] : Str)).isEmpty = false := by
      cases hx : ((apiPath.splitOn '/').dropLast).getLastD ([] : Str) with
      | nil => exact absurd hx hne
      | cons a l => rfl
    simp only [getTypeName, he, Bool.false_eq_true, if_false, hc, hany, if_true, hlast, hemp]
  · intro apiPath he hc hall hlen
    have hany : ((apiPath.splitOn '/').getLastD []).any (fun c => !isAsciiLetter c) = false := by
      rw [Bool.eq_false_iff]
      intro hcon
      rw [List.any_eq_true] at hcon
      obtain ⟨c, hmem, hf⟩ := hcon
      have := hall c hmem
      simp [this] at hf
    have hgt : (apiPath.splitOn '/').length > 1 := by omega
    simp only [getTypeName, he, Bool.false_eq_true, if_false, hc, hany, hgt, if_true]
  · intro apiPath he hc hall
    have hany : ((apiPath.splitOn '/').getLastD []).any (fun c => !isAsciiLetter c) = false := by
      rw [Bool.eq_false_iff]
      intro hcon
      rw [List.any_eq_true] at hcon
      obtain ⟨c, hmem, hf⟩ := hcon
      have := hall c hmem
      simp [this] at hf
    simp only [getTypeNameOld, he, Bool.false_eq_true, if_false, hc, hany]

/-- Witness for C9's amended theorem at the paths `User:create`, `9`,
`User/123` and `Content/Cms` (the last also through the historical
variant). -/
theorem claim_C9_witness :
    (getTypeName (lit "User:create")
       = pascalCaseApi (((lit "User:create").splitOn '/').getLastD []
           |>.takeWhile (fun c => c ≠ ':'))
      ∧ getTypeName (lit "User:create") = lit "User")
    ∧ (getTypeName (lit "9") = lit "ApiObject")
    ∧ (getTypeName (lit "User/123")
        = pascalCaseApi ((((lit "User/123").splitOn '/').dropLast).getLastD [])
      ∧ getTypeName (lit "User/123") = lit "User")
    ∧ (getTypeName (lit "Content/Cms")
        = pascalCaseApi ((((lit "Content/Cms").splitOn '/').dropLast).getLastD []
            ++ ((lit "Content/Cms").splitOn '/').getLastD [])
      ∧ getTypeName (lit "Content/Cms") = lit "ContentCms")
    ∧ (getTypeNameOld (lit "Content/Cms")
        = pascalCaseApi (((lit "Content/Cms").splitOn '/').getLastD [])
      ∧ getTypeNameOld (lit "Content/Cms") = lit "Cms") := by
  refine ⟨⟨claim_C9.1 (lit "User:create") (by decide) (by decide), by decide⟩,
    claim_C9.2.1 (lit "9") (by decide) (by decide) (by decide) (by decide),
    ⟨claim_C9.2.2.1 (lit "User/123") (by decide) (by decide) (by decide) (by decide)
       (by decide), by decide⟩,
    ⟨claim_C9.2.2.2.1 (lit "Content/Cms") (by decide) (by decide) (by decide) (by decide),
     by decide⟩,
    ⟨claim_C9.2.2.2.2 (lit "Content/Cms") (by decide) (by decide) (by decide), by decide⟩⟩

/-! ### C5 and C10 -/

/-- C5: below the depth limit an all-primitive array of exactly 5 elements
renders as a single inline bracketed line; an array of 6 elements renders
vertically with only its first 5 elements and a trailing `... 1 more items`
marker line (which carries the claim's "1 more item" text); and a non-empty
array or object reached at `depth = maxDepth` renders as a single count-only
summary line, never expanding further. -/
theorem claim_C5 :
    (∀ (items : List JsonVal) (depth maxDepth : Nat),
       depth < maxDepth → items.all isPrimitive = true → items.length = 5 →
       fmtVal (.arrv items) depth maxDepth =
         [indentS depth ++ lit "[" ++ joinSep (lit ", ") (items.map inlineVal) ++ lit "]"])
    ∧ (∀ (items : List JsonVal) (depth maxDepth : Nat),
       depth < maxDepth → items.length = 6 →
       fmtVal (.arrv items) depth maxDepth =
         [indentS depth ++ lit "["]
         ++ fmtItems (items.take 5) depth maxDepth
         ++ [indentS (depth + 1) ++ lit "... " ++ natStr 1 ++ lit " more items"]
         ++ [indentS depth ++ lit "]"])
    ∧ (lit "... " ++ natStr 1 ++ lit " more items" : Str) = lit "... 1 more items"
    ∧ includesStr (lit "... 1 more items") (lit "1 more item") = true
    ∧ (∀ (x : JsonVal) (xs : List JsonVal) (depth : Nat),
       fmtVal (.arrv (x :: xs)) depth depth =
         [indentS depth ++ lit "[Array with " ++ natStr (x :: xs).length ++ lit " items]"])
    ∧ (∀ (p : Str × JsonVal) (ps : List (Str × JsonVal)) (depth : Nat),
       fmtVal (.objv (p :: ps)) depth depth =
         [indentS depth ++ lit "\x7bObject with " ++ natStr (p :: ps).length
            ++ lit " properties\x7d"]) := by
  refine ⟨?_, ?_, by decide, by decide, ?_, ?_⟩
  · intro items depth maxDepth hdm hall hlen
    have hne : items.isEmpty = false := by cases items <;> simp_all
    rw [fmtVal]
    simp only [hne, Bool.false_eq_true, if_false]
    rw [if_neg (by omega)]
    rw [if_pos (by simp [hall, hlen])]
  · intro items depth maxDepth hdm hlen
    have hne : items.isEmpty = false := by cases items <;> simp_all
    rw [fmtVal]
    simp only [hne, Bool.false_eq_true, if_false]
    rw [if_neg (by omega)]
    rw [if_neg (by simp [hlen])]
    rw [if_pos (by omega), if_pos (by omega)]
    rw [hlen]
  · intro x xs depth
    rw [fmtVal]
    simp
  · intro p ps depth
    rw [fmtVal]
    simp

/-- Witness for C5 at a 5-element primitive array, a 6-element array, and a
nested array/object sitting exactly at the depth limit. -/
theorem claim_C5_witness :
    ((0 < 2 ∧ ([JsonVal.numv 1, .numv 2, .numv 3, .numv 4, .numv 5].all isPrimitive = true))
      ∧ fmtVal (.arrv [.numv 1, .numv 2, .numv 3, .numv 4, .numv 5]) 0 2 =
          [indentS 0 ++ lit "["
             ++ joinSep (lit ", ") ([JsonVal.numv 1, .numv 2, .numv 3, .numv 4, .numv 5].map inlineVal)
             ++ lit "]"])
    ∧ fmtVal (.arrv [.numv 1, .numv 2, .numv 3, .numv 4, .numv 5, .numv 6]) 0 2 =
        [indentS 0 ++ lit "["]
        ++ fmtItems ([JsonVal.numv 1, .numv 2, .numv 3, .numv 4, .numv 5, .numv 6].take 5) 0 2
        ++ [indentS 1 ++ lit "... " ++ natStr 1 ++ lit " more items"]
        ++ [indentS 0 ++ lit "]"]
    ∧ fmtVal (.arrv [.arrv [.numv 7]]) 2 2 = [indentS 2 ++ lit "[Array with 1 items]"]
    ∧ fmtVal (.objv [(lit "a", .objv [(lit "b", .numv 1)])]) 2 2 =
        [indentS 2 ++ lit "\x7bObject with 1 properties\x7d"] := by
  refine ⟨⟨⟨by omega, by decide⟩, claim_C5.1 _ 0 2 (by omega) (by decide) (by decide)⟩, ?_, ?_, ?_⟩
  · have h := claim_C5.2.1 _ 0 2 (by omega)
      (by decide : ([JsonVal.numv 1, .numv 2, .numv 3, .numv 4, .numv 5, .numv 6]).length = 6)
    rw [h]
  · have h := claim_C5.2.2.2.2.1 (JsonVal.arrv [.numv 7]) [] 2
    simpa using h
  · have h := claim_C5.2.2.2.2.2 (lit "a", JsonVal.objv [(lit "b", .numv 1)]) [] 2
    simpa using h

/-- C10: the emptiness check precedes the depth check, so empty arrays and
empty objects render their compact `[]` / `{}` marker at every depth —
including at or beyond the depth limit — while the count-only summary is
produced for non-empty arrays/objects at or beyond the limit. -/
theorem claim_C10 :
    (∀ depth maxDepth : Nat,
       fmtVal (.arrv []) depth maxDepth = [indentS depth ++ lit "[]"])
    ∧ (∀ depth maxDepth : Nat,
       fmtVal (.objv []) depth maxDepth = [indentS depth ++ lit "\x7b\x7d"])
    ∧ (∀ (x : JsonVal) (xs : List JsonVal) (depth maxDepth : Nat), maxDepth ≤ depth →
       fmtVal (.arrv (x :: xs)) depth maxDepth =
         [indentS depth ++ lit "[Array with " ++ natStr (x :: xs).length ++ lit " items]"])
    ∧ (∀ (p : Str × JsonVal) (ps : List (Str × JsonVal)) (depth maxDepth : Nat),
       maxDepth ≤ depth →
       fmtVal (.objv (p :: ps)) depth maxDepth =
         [indentS depth ++ lit "\x7bObject with " ++ natStr (p :: ps).length
            ++ lit " properties\x7d"]) := by
  refine ⟨?_, ?_, ?_, ?_⟩
  · intro depth maxDepth
    rw [fmtVal]
    simp
  · intro depth maxDepth
    rw [fmtVal]
    simp
  · intro x xs depth maxDepth hmd
    rw [fmtVal]
    simp only [List.isEmpty_cons, Bool.false_eq_true, if_false]
    rw [if_pos (by omega)]
  · intro p ps depth maxDepth hmd
    rw [fmtVal]
    simp only [List.isEmpty_cons, Bool.false_eq_true, if_false]
    rw [if_pos (by omega)]

/-- Witness for C10: empty containers keep their compact markers beyond the
depth limit, and non-empty ones summarize there. -/
theorem claim_C10_witness :
    fmtVal (.arrv []) 7 2 = [indentS 7 ++ lit "[]"]
    ∧ fmtVal (.objv []) 7 2 = [indentS 7 ++ lit "\x7b\x7d"]
    ∧ (2 ≤ 3
       ∧ fmtVal (.arrv [.numv 1, .numv 2]) 3 2 =
           [indentS 3 ++ lit "[Array with 2 items]"])
    ∧ fmtVal (.objv [(lit "k", .nullv)]) 3 2 =
        [indentS 3 ++ lit "\x7bObject with 1 properties\x7d"] := by
  refine ⟨claim_C10.1 7 2, claim_C10.2.1 7 2, ⟨by omega, ?_⟩, ?_⟩
  · have h := claim_C10.2.2.1 (JsonVal.numv 1) [.numv 2] 3 2 (by omega)
    simpa using h
  · have h := claim_C10.2.2.2 (lit "k", JsonVal.nullv) [] 3 2 (by omega)
    simpa using h

/-! ### C2 -/

/-- index.js builds the enum union as `'a' | 'b'` by joining on `' | '`
inside outer quotes; api.js quotes each value and joins on ` | `.  Both
produce the same string for a non-empty value list. -/
theorem enumJoined_eq_quotedJoin :
    ∀ (vs : List Str) (v : Str),
      enumJoined (v :: vs)
        = joinSep (lit " | ") ((v :: vs).map (fun x => lit "\x27" ++ x ++ lit "\x27")) := by
  intro vs
  induction vs with
  | nil =>
    intro v
    simp [enumJoined, joinSep]
  | cons w ws ih =>
    intro v
    have ihw := ih w
    simp only [enumJoined, joinSep, List.map] at ihw ⊢
    rw [← ihw]
    have hsep : (lit "\x27 | \x27" : Str) = lit "\x27" ++ (lit " | " ++ lit "\x27") := by decide
    rw [hsep]
    simp [List.append_assoc]

/-- C2: for an ENUM field with a non-empty `values` list (and no recognized
validator overriding rule 1), the type expression embedded in the emitted
resource interface is the single-quoted union of the values with a trailing
` | null` exactly when `null` is not explicitly `false` — in index.js the
mapper itself produces the union and the null suffix, in api.js the mapper
produces the union and the emitter appends the suffix, and the resulting
property lines carry that full expression. -/
theorem claim_C2 :
    ∀ (field : Str) (info : FieldMeta) (s v : Str) (vs : List Str),
      info.type = some s → strLower s = lit "enum" →
      info.values = some (v :: vs) →
      validatorRecognized info = false →
      (mapToTsType info.type info = enumJoined (v :: vs) ++ nullSuffix info)
      ∧ (convertToTypeScriptType info.type field info
           ++ (if info.nullb = some false then [] else lit " | null")
         = enumJoined (v :: vs) ++ nullSuffix info)
      ∧ nullSuffix info = (if info.nullb = some false then [] else lit " | null")
      ∧ apiFieldLine field info
          = lit "  " ++ field ++ lit ": " ++ convertToTypeScriptType info.type field info
            ++ nullSuffix info ++ lit ";" ++ apiFieldComment field info ++ lit "\n"
      ∧ (idxResourceFieldChunks field info).head? =
          some (lit "  " ++ field ++ (if info.nullb = some false then [] else lit "?")
            ++ lit ": " ++ (enumJoined (v :: vs) ++ nullSuffix info) ++ lit ";"
            ++ (if truthyS info.validator then lit " // " ++ info.validator.getD []
                else if info.protect then lit " // protected"
                else [])) := by
  intro field info s v vs htype hlow hvals hrec
  have hsne : s.isEmpty = false := by
    cases s with
    | nil => simp [strLower, lit] at hlow
    | cons a l => rfl
  have huuid : info.validator ≠ some (lit "uuid") := by
    intro hcon
    simp [validatorRecognized, hcon, validatorMapLookup] at hrec
  have hmap : mapToTsType info.type info = enumJoined (v :: vs) ++ nullSuffix info := by
    rw [htype]
    rcases hval : info.validator with _ | w
    · simp only [mapToTsType, hsne, Bool.false_eq_true, if_false, hval]
      simp +decide [mapToTsTypeRest, hlow, hvals, truthyL]
    · have hw : validatorMapLookup w = none := by
        rcases hm : validatorMapLookup w with _ | x
        · rfl
        · simp [validatorRecognized, hval, hm] at hrec
      simp only [mapToTsType, hsne, Bool.false_eq_true, if_false, hval, hw]
      simp +decide [mapToTsTypeRest, hlow, hvals, truthyL]
  have hconv : convertToTypeScriptType info.type field info = enumJoined (v :: vs) := by
    rw [htype]
    have hfk : (endsW field (lit "__") && info.validator = some (lit "uuid")) = false := by
      rcases hval : info.validator with _ | w
      · simp
      · simp only [Bool.and_eq_false_iff]
        right
        simp only [decide_eq_false_iff_not]
        intro hcon
        exact huuid (by rw [hval, hcon])
    simp +decide [convertToTypeScriptType, hsne, hfk, hlow, hvals, truthyL]
    exact (enumJoined_eq_quotedJoin vs v).symm
  refine ⟨hmap, ?_, rfl, rfl, ?_⟩
  · rw [hconv, nullSuffix]
  · simp only [idxResourceFieldChunks, hmap, List.head?]
    rfl

/-- Witness for C2 at an ENUM field with values `a`, `b` (nullable) — both
mappers yield `'a' | 'b' | null`. -/
theorem claim_C2_witness :
    (mapToTsType (some (lit "ENUM")) { type := some (lit "ENUM"), values := some [lit "a", lit "b"] }
       = enumJoined [lit "a", lit "b"]
         ++ nullSuffix { type := some (lit "ENUM"), values := some [lit "a", lit "b"] })
    ∧ enumJoined [lit "a", lit "b"]
        ++ nullSuffix { type := some (lit "ENUM"), values := some [lit "a", lit "b"] }
      = lit "\x27a\x27 | \x27b\x27 | null" := by
  constructor
  · exact (claim_C2 (lit "Status") { type := some (lit "ENUM"), values := some [lit "a", lit "b"] }
      (lit "ENUM") (lit "a") [lit "b"] rfl (by decide) rfl (by decide)).1
  · decide

/-! ### C4 -/

/-- A one-column table whose only field is the translatable ID
`Name_Text__`, used to inspect the emitted resource interfaces. -/
def c4Table : TableSchema :=
  { Name := lit "X", Struct := [(lit "Name_Text__", { type := some (lit "char") })] }

/-- Description document around `c4Table`. -/
def c4Data : ApiData := { Path := some [lit "X"], table := some c4Table }

/-- The three-field object used to exercise the pretty-printer's pair
handling: the pair `Name_Text__`/`Name` followed by a plain field `Zz`. -/
def c4Obj : JsonVal :=
  .objv [(lit "Name_Text__", .strv (lit "x")),
         (lit "Name", .strv (lit "Hello")),
         (lit "Zz", .strv (lit "y"))]

/-- Counterexample to C4 as stated: rendering an object holding the pair and
one further field `Zz`, the pretty-printer emits no separating comma at all —
the comma is suppressed not only inside the pair but also between the pair
and the following field (the skipped companion contributes neither lines nor
its comma).  Moreover the api.js resource interface (also cited by the
claim) contains no synthetic `Name?` companion property. -/
theorem claim_C4_counterexample :
    fmtVal c4Obj 0 2 =
      [lit "\x7b",
       lit "  \x22Name_Text__\x22: \x22x\x22 // Translatable ID",
       lit "  \x22Name\x22: \x22Hello\x22 // Translated text",
       lit "  \x22Zz\x22: \x22y\x22",
       lit "\x7d"]
    ∧ (fmtVal c4Obj 0 2).count (indentS 1 ++ lit ",") = 0
    ∧ includesStr (apiTablePart c4Data) (lit "Name_Text__") = true
    ∧ includesStr (apiTablePart c4Data) (lit "Name?") = false := by
  have hs : sortedKeysOf [(lit "Name_Text__", .strv (lit "x")),
                          (lit "Name", .strv (lit "Hello")),
                          (lit "Zz", .strv (lit "y"))] =
      [lit "Name_Text__", lit "Name", lit "Zz"] := by decide
  have h1 : fmtVal c4Obj 0 2 =
      [lit "\x7b",
       lit "  \x22Name_Text__\x22: \x22x\x22 // Translatable ID",
       lit "  \x22Name\x22: \x22Hello\x22 // Translated text",
       lit "  \x22Zz\x22: \x22y\x22",
       lit "\x7d"] := by
    simp +decide [c4Obj, fmtVal, fmtPairs, fmtEntryE, fmtCommaE, hs, jsGet, textBases,
      List.lookup]
  refine ⟨h1, ?_, by decide, by decide⟩
  rw [h1]
  decide

/-- A companion text field is skipped by the rendering loop: it contributes
neither lines nor a separating comma. -/
theorem fmtPairs_skip (fields : List (Str × JsonVal)) (depth maxDepth : Nat)
    (base : Str) (rest : List Str)
    (hb : (textBases fields).contains base = true) :
    fmtPairs (base :: rest) fields depth maxDepth = fmtPairs rest fields depth maxDepth := by
  rw [fmtPairs]
  simp only [hb, if_true]

/-- `fmtPairs` on an empty key list renders nothing. -/
theorem fmtPairs_nil (fields : List (Str × JsonVal)) (depth maxDepth : Nat) :
    fmtPairs [] fields depth maxDepth = [] := by
  rw [fmtPairs]

/-- Unfolding of the rendering loop at a non-skipped key. -/
theorem fmtPairs_cons_entry (fields : List (Str × JsonVal)) (depth maxDepth : Nat)
    (K : Str) (rest : List Str) (hK : (textBases fields).contains K = false) :
    fmtPairs (K :: rest) fields depth maxDepth =
      fmtEntryE K fields depth maxDepth ++ fmtCommaE K rest fields depth
      ++ fmtPairs rest fields depth maxDepth := by
  rw [fmtPairs]
  simp only [hK, Bool.false_eq_true, if_false]

/-- C4 (amended): index.js's resource interface emits both the `_Text__`
property line and the synthetic optional companion property (api.js's
emitter, also cited, emits no companion — see the counterexample); the
pretty-printer renders the ID line immediately followed by the translated
text line with no comma between them, and the skipped companion also
suppresses the comma that would separate the pair from the following field,
while plain adjacent fields keep their separating comma. -/
theorem claim_C4 :
    (∀ (field : Str) (info : FieldMeta), endsW field (lit "_Text__") = true →
       idxResourceFieldChunks field info =
         [lit "  " ++ field ++ (if info.nullb = some false then [] else lit "?") ++ lit ": "
            ++ mapToTsType info.type info ++ lit ";"
            ++ (if truthyS info.validator then lit " // " ++ info.validator.getD []
                else if info.protect then lit " // protected" else []),
          lit "  " ++ sliceDropLast field 7
            ++ lit "?: string; // Auto-generated translated text field"])
    ∧ (∀ (data : ApiData) (table : TableSchema) (p : Str × FieldMeta),
        p ∈ tableFields table →
        ∀ c ∈ idxResourceFieldChunks p.1 p.2, c ∈ idxGenResourceTypes data table)
    ∧ (∀ (fields : List (Str × JsonVal)) (depth maxDepth : Nat) (K idv tv : Str)
         (rest : List Str),
        endsW K (lit "_Text__") = true →
        jsGet fields K = .strv idv →
        (textBases fields).contains K = false →
        (textBases fields).contains (sliceDropLast K 7) = true →
        List.lookup (sliceDropLast K 7) fields = some (JsonVal.strv tv) →
        fmtPairs [K] fields depth maxDepth =
          [indentS (depth + 1) ++ lit "\x22" ++ K ++ lit "\x22: \x22" ++ idv
             ++ lit "\x22 // Translatable ID",
           indentS (depth + 1) ++ lit "\x22" ++ sliceDropLast K 7 ++ lit "\x22: \x22" ++ tv
             ++ lit "\x22 // Translated text"]
        ∧ fmtPairs (K :: sliceDropLast K 7 :: rest) fields depth maxDepth =
            fmtPairs [K] fields depth maxDepth ++ fmtPairs rest fields depth maxDepth)
    ∧ (∀ (fields : List (Str × JsonVal)) (depth maxDepth : Nat) (K nk : Str)
         (rest : List Str),
        (textBases fields).contains K = false →
        ¬((textBases fields).contains nk = true ∧ nk = sliceDropLast K 7) →
        fmtPairs (K :: nk :: rest) fields depth maxDepth =
          fmtPairs [K] fields depth maxDepth ++ [indentS (depth + 1) ++ lit ","]
          ++ fmtPairs (nk :: rest) fields depth maxDepth) := by
  refine ⟨?_, ?_, ?_, ?_⟩
  · intro field info h
    simp only [idxResourceFieldChunks, h, if_true]
    rfl
  · intro data table p hp c hc
    have hmem : c ∈ (tableFields table).flatMap (fun q => idxResourceFieldChunks q.1 q.2) :=
      List.mem_flatMap.mpr ⟨p, hp, hc⟩
    simp only [idxGenResourceTypes, List.mem_append]
    tauto
  · intro fields depth maxDepth K idv tv rest hK hget hKnotbase hbase hlook
    have hguard : (endsW K (lit "_Text__")
        && (match jsGet fields K with | .strv _ => true | _ => false)) = true := by
      rw [hget, hK]
      rfl
    have hentry : fmtEntryE K fields depth maxDepth =
        [indentS (depth + 1) ++ lit "\x22" ++ K ++ lit "\x22: \x22" ++ idv
           ++ lit "\x22 // Translatable ID",
         indentS (depth + 1) ++ lit "\x22" ++ sliceDropLast K 7 ++ lit "\x22: \x22" ++ tv
           ++ lit "\x22 // Translated text"] := by
      rw [fmtEntryE]
      rw [if_pos hguard, hget, hlook]
      simp [jsInterp]
    have hsingle : fmtPairs [K] fields depth maxDepth =
        [indentS (depth + 1) ++ lit "\x22" ++ K ++ lit "\x22: \x22" ++ idv
           ++ lit "\x22 // Translatable ID",
         indentS (depth + 1) ++ lit "\x22" ++ sliceDropLast K 7 ++ lit "\x22: \x22" ++ tv
           ++ lit "\x22 // Translated text"] := by
      rw [fmtPairs_cons_entry fields depth maxDepth K [] hKnotbase]
      rw [hentry, fmtCommaE, fmtPairs_nil]
      simp
    refine ⟨hsingle, ?_⟩
    rw [fmtPairs_cons_entry fields depth maxDepth K _ hKnotbase]
    rw [fmtPairs_skip fields depth maxDepth _ rest hbase]
    rw [hsingle, hentry]
    have hcomma : fmtCommaE K (sliceDropLast K 7 :: rest) fields depth = [] := by
      rw [fmtCommaE]
      rw [if_pos (by rw [hbase]; simp)]
    rw [hcomma]
    simp
  · intro fields depth maxDepth K nk rest hKnotbase hnk
    rw [fmtPairs_cons_entry fields depth maxDepth K (nk :: rest) hKnotbase]
    rw [fmtPairs_cons_entry fields depth maxDepth K [] hKnotbase]
    have hcomma : fmtCommaE K (nk :: rest) fields depth = [indentS (depth + 1) ++ lit ","] := by
      rw [fmtCommaE]
      rw [if_neg ?hc]
      case hc =>
        intro hcon
        rw [Bool.and_eq_true] at hcon
        exact hnk ⟨hcon.1, of_decide_eq_true hcon.2⟩
    rw [hcomma, fmtCommaE, fmtPairs_nil]
    simp

/-- Witness for C4 at the `Name_Text__`/`Name`/`Zz` object and the
`c4Table` interface. -/
theorem claim_C4_witness :
    idxResourceFieldChunks (lit "Name_Text__") { type := some (lit "char") } =
      [lit "  Name_Text__?: string;",
       lit "  Name?: string; // Auto-generated translated text field"]
    ∧ (lit "  Name_Text__?: string;") ∈ idxGenResourceTypes c4Data c4Table
    ∧ (lit "  Name?: string; // Auto-generated translated text field")
        ∈ idxGenResourceTypes c4Data c4Table
    ∧ fmtPairs [lit "Name_Text__"]
        [(lit "Name_Text__", .strv (lit "x")), (lit "Name", .strv (lit "Hello")),
         (lit "Zz", .strv (lit "y"))] 0 2 =
        [indentS 1 ++ lit "\x22" ++ lit "Name_Text__" ++ lit "\x22: \x22" ++ lit "x"
           ++ lit "\x22 // Translatable ID",
         indentS 1 ++ lit "\x22" ++ sliceDropLast (lit "Name_Text__") 7 ++ lit "\x22: \x22"
           ++ lit "Hello" ++ lit "\x22 // Translated text"] := by
  have hchunks := claim_C4.1 (lit "Name_Text__") { type := some (lit "char") } (by decide)
  have hchunks2 : idxResourceFieldChunks (lit "Name_Text__") { type := some (lit "char") } =
      [lit "  Name_Text__?: string;",
       lit "  Name?: string; // Auto-generated translated text field"] := by
    rw [hchunks]
    decide
  refine ⟨hchunks2, ?_, ?_, ?_⟩
  · apply claim_C4.2.1 c4Data c4Table (lit "Name_Text__", { type := some (lit "char") })
      (by decide)
    rw [hchunks2]
    decide
  · apply claim_C4.2.1 c4Data c4Table (lit "Name_Text__", { type := some (lit "char") })
      (by decide)
    rw [hchunks2]
    decide
  · exact (claim_C4.2.2.1
      [(lit "Name_Text__", .strv (lit "x")), (lit "Name", .strv (lit "Hello")),
       (lit "Zz", .strv (lit "y"))] 0 2 (lit "Name_Text__") (lit "x") (lit "Hello") []
      (by decide) rfl (by decide) (by decide) rfl).1

/-! ### C8 -/

theorem char_toNat_inj {a b : Char} (h : a.toNat = b.toNat) : a = b :=
  Char.ext (UInt32.ext h)

theorem strLtB_trans : ∀ a b c : Str, strLtB a b = true → strLtB b c = true →
    strLtB a c = true := by
  intro a
  induction a with
  | nil =>
    intro b c hab hbc
    cases b with
    | nil => simp [strLtB] at hab
    | cons y ys =>
      cases c with
      | nil => simp [strLtB] at hbc
      | cons z zs => simp [strLtB]
  | cons x xs ih =>
    intro b c hab hbc
    cases b with
    | nil => simp [strLtB] at hab
    | cons y ys =>
      cases c with
      | nil => simp [strLtB] at hbc
      | cons z zs =>
        simp only [strLtB] at hab hbc ⊢
        by_cases hxy : x = y
        · subst hxy
          rw [if_pos rfl] at hab
          by_cases hyz : x = z
          · subst hyz
            rw [if_pos rfl] at hbc ⊢
            exact ih ys zs hab hbc
          · rw [if_neg hyz] at hbc ⊢
            exact hbc
        · rw [if_neg hxy] at hab
          by_cases hyz : y = z
          · have hxz : x ≠ z := by
              rw [← hyz]
              exact hxy
            rw [if_neg hxz, ← hyz]
            exact hab
          · rw [if_neg hyz] at hbc
            simp only [charLtB, decide_eq_true_eq] at hab hbc
            have hlt : x.toNat < z.toNat := Nat.lt_trans hab hbc
            have hxz : x ≠ z := by
              intro hcon
              subst hcon
              exact absurd hlt (by omega)
            rw [if_neg hxz]
            simp only [charLtB, decide_eq_true_eq]
            omega

theorem strLtB_total : ∀ a b : Str, a = b ∨ strLtB a b = true ∨ strLtB b a = true := by
  intro a
  induction a with
  | nil =>
    intro b
    cases b with
    | nil => exact Or.inl rfl
    | cons y ys => exact Or.inr (Or.inl (by simp [strLtB]))
  | cons x xs ih =>
    intro b
    cases b with
    | nil => exact Or.inr (Or.inr (by simp [strLtB]))
    | cons y ys =>
      by_cases hxy : x = y
      · subst hxy
        rcases ih ys with h | h | h
        · exact Or.inl (by rw [h])
        · exact Or.inr (Or.inl (by simp [strLtB, h]))
        · exact Or.inr (Or.inr (by simp [strLtB, h]))
      · have hval : x.toNat ≠ y.toNat := by
          intro hcon
          exact hxy (char_toNat_inj hcon)
        rcases Nat.lt_or_ge x.toNat y.toNat with hlt | hge
        · refine Or.inr (Or.inl ?_)
          simp only [strLtB]
          rw [if_neg hxy]
          simp only [charLtB, decide_eq_true_eq]
          omega
        · refine Or.inr (Or.inr ?_)
          simp only [strLtB]
          rw [if_neg (Ne.symm hxy)]
          simp only [charLtB, decide_eq_true_eq]
          omega

theorem strLtB_irrefl : ∀ a : Str, strLtB a a = false := by
  intro a
  induction a with
  | nil => rfl
  | cons x xs ih => simp [strLtB, ih]

theorem strLtB_asymm : ∀ a b : Str, strLtB a b = true → strLtB b a = false := by
  intro a b hab
  cases hba : strLtB b a with
  | false => rfl
  | true =>
    have h2 := strLtB_trans a b a hab hba
    rw [strLtB_irrefl] at h2
    exact absurd h2 (by simp)

theorem localeCmp_le_total (a b : Str) (h : ¬(localeCmp a b ≤ 0)) : localeCmp b a ≤ 0 := by
  rcases strLtB_total a b with he | hlt | hgt
  · subst he
    exact absurd (by simp [localeCmp, strLtB_irrefl]) h
  · exact absurd (by simp [localeCmp, hlt]) h
  · simp [localeCmp, hgt]

theorem localeCmp_le_trans (a b c : Str) (hab : localeCmp a b ≤ 0)
    (hbc : localeCmp b c ≤ 0) : localeCmp a c ≤ 0 := by
  by_cases h1 : strLtB a b = true
  · by_cases h2 : strLtB b c = true
    · have h3 := strLtB_trans a b c h1 h2
      simp [localeCmp, h3]
    · have hbceq : b = c := by
        by_contra hne
        simp [localeCmp, h2, hne] at hbc
      subst hbceq
      simp [localeCmp, h1]
  · have habeq : a = b := by
      by_contra hne
      simp [localeCmp, h1, hne] at hab
    subst habeq
    exact hbc

theorem perm_insertByCmp {α : Type} (cmp : α → α → Int) (x : α) :
    ∀ l : List α, List.Perm (insertByCmp cmp x l) (x :: l) := by
  intro l
  induction l with
  | nil => simp [insertByCmp]
  | cons y ys ih =>
    simp only [insertByCmp]
    split
    · exact List.Perm.trans (List.Perm.cons y ih) (List.Perm.swap x y ys)
    · exact List.Perm.refl _

theorem perm_sortByCmp {α : Type} (cmp : α → α → Int) :
    ∀ l : List α, List.Perm (sortByCmp cmp l) l := by
  intro l
  induction l with
  | nil => exact List.Perm.refl _
  | cons x xs ih =>
    exact List.Perm.trans (perm_insertByCmp cmp x _) (List.Perm.cons x ih)

theorem pairwise_insertByCmp {α : Type} (cmp : α → α → Int)
    (htot : ∀ a b, ¬(cmp a b ≤ 0) → cmp b a ≤ 0)
    (htrans : ∀ a b c, cmp a b ≤ 0 → cmp b c ≤ 0 → cmp a c ≤ 0) (x : α) :
    ∀ l : List α, List.Pairwise (fun a b => cmp a b ≤ 0) l →
      List.Pairwise (fun a b => cmp a b ≤ 0) (insertByCmp cmp x l) := by
  intro l
  induction l with
  | nil => intro _; simp [insertByCmp]
  | cons y ys ih =>
    intro hp
    rw [List.pairwise_cons] at hp
    obtain ⟨hy, hys⟩ := hp
    by_cases hc : cmp y x ≤ 0
    · simp only [insertByCmp, if_pos hc]
      rw [List.pairwise_cons]
      refine ⟨?_, ih hys⟩
      intro z hz
      have hz2 := (perm_insertByCmp cmp x ys).mem_iff.mp hz
      rcases List.mem_cons.mp hz2 with hz3 | hz3
      · subst hz3
        exact hc
      · exact hy z hz3
    · simp only [insertByCmp, if_neg hc]
      rw [List.pairwise_cons]
      refine ⟨?_, List.pairwise_cons.mpr ⟨hy, hys⟩⟩
      intro z hz
      rcases List.mem_cons.mp hz with hz3 | hz3
      · subst hz3
        exact htot _ _ hc
      · exact htrans x y z (htot y x hc) (hy z hz3)

theorem pairwise_sortByCmp {α : Type} (cmp : α → α → Int)
    (htot : ∀ a b, ¬(cmp a b ≤ 0) → cmp b a ≤ 0)
    (htrans : ∀ a b c, cmp a b ≤ 0 → cmp b c ≤ 0 → cmp a c ≤ 0) :
    ∀ l : List α, List.Pairwise (fun a b => cmp a b ≤ 0) (sortByCmp cmp l) := by
  intro l
  induction l with
  | nil => simp [sortByCmp]
  | cons x xs ih => exact pairwise_insertByCmp cmp htot htrans x _ ih

theorem groupEntries_insert (L k : Str) (p : FieldMeta) :
    ∀ acc : List (Str × List FieldMeta),
      groupEntries (insertGroup acc k p) L =
        if k = L then groupEntries acc L ++ [p] else groupEntries acc L := by
  intro acc
  induction acc with
  | nil =>
    simp only [insertGroup, groupEntries, List.lookup]
    by_cases hk : k = L
    · subst hk
      simp
    · rw [if_neg hk]
      have : (L == k) = false := by
        simp only [beq_eq_false_iff_ne]
        exact Ne.symm hk
      simp [this]
  | cons q acc ih =>
    obtain ⟨k0, l0⟩ := q
    simp only [insertGroup]
    by_cases hk0 : k0 = k
    · subst hk0
      simp only [if_pos rfl, groupEntries, List.lookup]
      by_cases hL : k0 = L
      · subst hL
        simp
      · have : (L == k0) = false := by
          simp only [beq_eq_false_iff_ne]
          exact Ne.symm hL
        simp [this, hL]
    · rw [if_neg hk0]
      simp only [groupEntries, List.lookup]
      by_cases hL : L = k0
      · subst hL
        have hkL : ¬(k = L) := fun hcon => hk0 (hcon.symm)
        simp [hkL]
      · have : (L == k0) = false := by
          simp only [beq_eq_false_iff_ne]
          exact hL
        simp only [this, Bool.false_eq_true, if_false]
        exact ih

theorem groupEntries_fold (L : Str) :
    ∀ (ps : List FieldMeta) (acc : List (Str × List FieldMeta)),
      groupEntries (ps.foldl (fun a p => insertGroup a (firstUpperKey p.name) p) acc) L =
        groupEntries acc L ++ ps.filter (fun p => firstUpperKey p.name == L) := by
  intro ps
  induction ps with
  | nil => intro acc; simp
  | cons p ps ih =>
    intro acc
    simp only [List.foldl_cons, List.filter_cons]
    rw [ih]
    rw [groupEntries_insert]
    by_cases hk : firstUpperKey p.name = L
    · simp [hk]
    · have : (firstUpperKey p.name == L) = false := by
        simp only [beq_eq_false_iff_ne]
        exact hk
      simp [hk, this]

theorem mem_keys_insertGroup (L k : Str) (p : FieldMeta) :
    ∀ acc : List (Str × List FieldMeta),
      (L ∈ (insertGroup acc k p).map Prod.fst ↔ L ∈ acc.map Prod.fst ∨ L = k) := by
  intro acc
  induction acc with
  | nil => simp [insertGroup]
  | cons q acc ih =>
    obtain ⟨k0, l0⟩ := q
    by_cases hk0 : k0 = k
    · subst hk0
      simp [insertGroup, List.mem_cons]
      tauto
    · simp only [insertGroup, if_neg hk0, List.map_cons, List.mem_cons]
      rw [ih]
      tauto

theorem mem_keys_fold (L : Str) :
    ∀ (ps : List FieldMeta) (acc : List (Str × List FieldMeta)),
      (L ∈ ((ps.foldl (fun a p => insertGroup a (firstUpperKey p.name) p) acc)).map Prod.fst ↔
        L ∈ acc.map Prod.fst ∨ ∃ p ∈ ps, firstUpperKey p.name = L) := by
  intro ps
  induction ps with
  | nil => intro acc; simp
  | cons p ps ih =>
    intro acc
    simp only [List.foldl_cons]
    rw [ih, mem_keys_insertGroup]
    constructor
    · intro h
      rcases h with (h | h) | h
      · exact Or.inl h
      · exact Or.inr ⟨p, List.mem_cons_self p ps, h.symm⟩
      · obtain ⟨q, hq, hql⟩ := h
        exact Or.inr ⟨q, List.mem_cons_of_mem p hq, hql⟩
    · intro h
      rcases h with h | ⟨q, hq, hql⟩
      · exact Or.inl (Or.inl h)
      · rcases List.mem_cons.mp hq with hq | hq
        · subst hq
          exact Or.inl (Or.inr hql.symm)
        · exact Or.inr ⟨q, hq, hql⟩

/-- C8: both listing variants group by the uppercased first character of the
entry name; the letters actually listed are exactly the first letters present
and appear in ascending order; within a letter the endpoint formatter keeps
entries in source order (the group is the source-order filter of the prefix
list), while the root listing sorts the group alphabetically by name (a
permutation of the same filter, pairwise ordered by name). -/
theorem claim_C8 :
    (∀ (ps : List FieldMeta) (L : Str),
       groupEntries (buildGroups ps) L = ps.filter (fun p => firstUpperKey p.name == L))
    ∧ (∀ ps : List FieldMeta,
       List.Pairwise (fun a b => localeCmp a b ≤ 0) (sortedLetters ps))
    ∧ (∀ (ps : List FieldMeta) (L : Str),
       L ∈ sortedLetters ps ↔ ∃ p ∈ ps, firstUpperKey p.name = L)
    ∧ (∀ (ps : List FieldMeta) (L : Str),
       List.Perm (sortEntriesByName (groupEntries (buildGroups ps) L))
         (ps.filter (fun p => firstUpperKey p.name == L))
       ∧ List.Pairwise (fun a b => localeCmp a.name b.name ≤ 0)
           (sortEntriesByName (groupEntries (buildGroups ps) L))) := by
  have hgroups : ∀ (ps : List FieldMeta) (L : Str),
      groupEntries (buildGroups ps) L = ps.filter (fun p => firstUpperKey p.name == L) := by
    intro ps L
    have := groupEntries_fold L ps []
    simpa [buildGroups, groupEntries, List.lookup] using this
  refine ⟨hgroups, ?_, ?_, ?_⟩
  · intro ps
    exact pairwise_sortByCmp localeCmp localeCmp_le_total localeCmp_le_trans _
  · intro ps L
    unfold sortedLetters
    rw [(perm_sortByCmp localeCmp ((buildGroups ps).map Prod.fst)).mem_iff]
    have := mem_keys_fold L ps []
    simpa [buildGroups] using this
  · intro ps L
    constructor
    · rw [hgroups]
      exact perm_sortByCmp _ _
    · exact pairwise_sortByCmp _ (fun a b h => localeCmp_le_total a.name b.name h)
        (fun a b c h1 h2 => localeCmp_le_trans a.name b.name c.name h1 h2) _
/-! ### C3 -/

theorem klb_head : klbDateTimeBlock.head? = some '/' := rfl

theorem klb_last : klbDateTimeBlock.getLast? = some '\x0a' := rfl

/-- A chunk whose first character differs from `/` is not the KlbDateTime
declaration. -/
theorem ne_klb_of_head {x : Str} {c : Char} (hx : x.head? = some c) (hc : c ≠ '/') :
    x ≠ klbDateTimeBlock := by
  intro he
  rw [he, klb_head] at hx
  exact hc (Option.some.inj hx).symm

/-- A chunk whose last character differs from the newline ending the
KlbDateTime declaration is not that declaration. -/
theorem ne_klb_of_last {x : Str} {c : Char} (hx : x.getLast? = some c) (hc : c ≠ '\x0a') :
    x ≠ klbDateTimeBlock := by
  intro he
  rw [he, klb_last] at hx
  exact hc (Option.some.inj hx).symm

theorem apk_head : apiKlbChunk.head? = some '/' := rfl

theorem ne_apk_of_head {x : Str} {c : Char} (hx : x.head? = some c) (hc : c ≠ '/') :
    x ≠ apiKlbChunk := by
  intro he
  rw [he, apk_head] at hx
  exact hc (Option.some.inj hx).symm

/-- Last character of `x ++ z` when the tail `z` ends in `c`. -/
theorem getLast?_app {x z : Str} {c : Char} (hz : z.getLast? = some c) :
    (x ++ z).getLast? = some c := by
  rw [List.getLast?_append, hz]
  rfl

theorem count_singleton_ne {x a : Str} (h : x ≠ a) : ([x] : List Str).count a = 0 := by
  rw [List.count_eq_zero, List.mem_singleton]
  exact fun he => h he.symm

theorem count_nil_of_forall_ne {L : List Str} {a : Str} (h : ∀ x ∈ L, x ≠ a) :
    L.count a = 0 :=
  List.count_eq_zero.mpr (fun hm => h a hm rfl)

theorem klb_not_mem_idxResourceFieldChunks (field : Str) (info : FieldMeta) :
    ∀ c ∈ idxResourceFieldChunks field info, c ≠ klbDateTimeBlock := by
  intro c hc
  simp only [idxResourceFieldChunks, List.mem_append, List.mem_cons, List.not_mem_nil,
    or_false] at hc
  rcases hc with rfl | hc
  · exact ne_klb_of_head rfl (by decide)
  · by_cases hT : endsW field (lit "_Text__") = true
    · rw [if_pos hT] at hc
      obtain rfl := List.mem_singleton.mp hc
      exact ne_klb_of_head rfl (by decide)
    · rw [if_neg hT] at hc
      exact absurd hc (List.not_mem_nil c)

theorem klb_not_mem_idxGenProcedureTypes (data : ApiData) (proc : ProcSchema) :
    ∀ c ∈ idxGenProcedureTypes data proc, c ≠ klbDateTimeBlock := by
  intro c hc
  simp only [idxGenProcedureTypes] at hc
  by_cases hr : truthyS proc.return_type = true
  · rw [if_pos hr] at hc
    simp only [List.mem_append, List.mem_cons, List.mem_map, List.not_mem_nil, or_false,
      false_or, or_assoc] at hc
    rcases hc with rfl | rfl | ⟨a, _, rfl⟩ | rfl | rfl | rfl | rfl | rfl | rfl | rfl | rfl
      | rfl | rfl | ⟨b, _, rfl⟩ | rfl | rfl | rfl | rfl
    all_goals first
      | exact ne_klb_of_head rfl (by decide)
      | exact ne_klb_of_last rfl (by decide)
      | exact ne_klb_of_last (getLast?_app rfl) (by decide)
      | (unfold idxUsageCall
         split <;> exact ne_klb_of_head rfl (by decide))
  · rw [if_neg hr] at hc
    simp only [List.mem_append, List.mem_cons, List.mem_map, List.not_mem_nil, or_false,
      false_or, List.append_nil, or_assoc] at hc
    rcases hc with rfl | rfl | ⟨a, _, rfl⟩ | rfl | rfl | rfl | rfl | rfl | rfl
      | ⟨b, _, rfl⟩ | rfl | rfl | rfl | rfl
    all_goals first
      | exact ne_klb_of_head rfl (by decide)
      | exact ne_klb_of_last rfl (by decide)
      | exact ne_klb_of_last (getLast?_app rfl) (by decide)
      | (unfold idxUsageCall
         split <;> exact ne_klb_of_head rfl (by decide))

theorem klb_not_mem_idxGenResourceTypes (data : ApiData) (table : TableSchema) :
    ∀ c ∈ idxGenResourceTypes data table, c ≠ klbDateTimeBlock := by
  intro c hc
  simp only [idxGenResourceTypes] at hc
  rcases hpk : table.primary with _ | pks <;> simp only [hpk] at hc
  · simp only [List.mem_append, List.mem_cons, List.mem_flatMap, List.not_mem_nil,
      or_false, false_or, List.append_nil, or_assoc] at hc
    rcases hc with rfl | rfl | ⟨p, _, hmem⟩ | rfl
    all_goals first
      | exact klb_not_mem_idxResourceFieldChunks p.1 p.2 c hmem
      | exact ne_klb_of_head rfl (by decide)
      | exact ne_klb_of_last (getLast?_app rfl) (by decide)
  · split at hc
    · simp only [List.mem_append, List.mem_cons, List.mem_flatMap, List.not_mem_nil,
        or_false, false_or, or_assoc] at hc
      rcases hc with rfl | rfl | ⟨p, _, hmem⟩ | rfl | rfl | rfl
      all_goals first
        | exact klb_not_mem_idxResourceFieldChunks p.1 p.2 c hmem
        | exact ne_klb_of_head rfl (by decide)
        | exact ne_klb_of_last (getLast?_app rfl) (by decide)
    · split at hc
      · simp only [List.mem_append, List.mem_cons, List.mem_flatMap, List.mem_map,
          List.not_mem_nil, or_false, false_or, or_assoc] at hc
        rcases hc with rfl | rfl | ⟨p, _, hmem⟩ | rfl | rfl | rfl | ⟨k, _, rfl⟩ | rfl
        all_goals first
          | exact klb_not_mem_idxResourceFieldChunks p.1 p.2 c hmem
          | exact ne_klb_of_head rfl (by decide)
          | exact ne_klb_of_last (getLast?_app rfl) (by decide)
      · simp only [List.mem_append, List.mem_cons, List.mem_flatMap, List.not_mem_nil,
          or_false, false_or, List.append_nil, or_assoc] at hc
        rcases hc with rfl | rfl | ⟨p, _, hmem⟩ | rfl
        all_goals first
          | exact klb_not_mem_idxResourceFieldChunks p.1 p.2 c hmem
          | exact ne_klb_of_head rfl (by decide)
          | exact ne_klb_of_last (getLast?_app rfl) (by decide)

theorem klb_not_mem_idxGenMethodTypes (data : ApiData) (funcs : List ProcSchema) :
    ∀ c ∈ idxGenMethodTypes data funcs, c ≠ klbDateTimeBlock := by
  intro c hc
  simp only [idxGenMethodTypes, List.mem_flatMap] at hc
  obtain ⟨f, _, hc⟩ := hc
  by_cases hr : truthyS f.return_type = true
  · rw [if_pos hr] at hc
    simp only [List.mem_append, List.mem_cons, List.mem_map, List.not_mem_nil, or_false,
      false_or, or_assoc] at hc
    rcases hc with rfl | rfl | ⟨a, _, rfl⟩ | rfl | rfl | rfl | rfl | rfl | rfl | rfl | rfl
      | rfl | rfl | ⟨b, _, rfl⟩ | rfl | rfl | rfl | rfl
    all_goals first
      | exact ne_klb_of_head rfl (by decide)
      | exact ne_klb_of_last rfl (by decide)
      | exact ne_klb_of_last (getLast?_app rfl) (by decide)
      | (unfold idxUsageCall
         split <;> exact ne_klb_of_head rfl (by decide))
  · rw [if_neg hr] at hc
    simp only [List.mem_append, List.mem_cons, List.mem_map, List.not_mem_nil, or_false,
      false_or, List.append_nil, or_assoc] at hc
    rcases hc with rfl | rfl | ⟨a, _, rfl⟩ | rfl | rfl | rfl | rfl | rfl | rfl
      | ⟨b, _, rfl⟩ | rfl | rfl | rfl | rfl
    all_goals first
      | exact ne_klb_of_head rfl (by decide)
      | exact ne_klb_of_last rfl (by decide)
      | exact ne_klb_of_last (getLast?_app rfl) (by decide)
      | (unfold idxUsageCall
         split <;> exact ne_klb_of_head rfl (by decide))

/-- The index.js emitter output is header chunk, conditional KlbDateTime chunk,
then body chunks: its KlbDateTime count is decided by the scan flag whenever no
body chunk equals the declaration. -/
theorem idx_count_aux (data : ApiData) (L : List Str)
    (hL : ∀ x ∈ L, x ≠ klbDateTimeBlock) :
    (([lit "\n" ++ cBright ++ cBlue ++ lit "TypeScript definitions for:" ++ cReset
        ++ lit " " ++ cGreen ++ pathOrUnknown data ++ cReset ++ lit "\n"]
      ++ (if hasDateTimeFields data then [klbDateTimeBlock] else []) ++ L).count
        klbDateTimeBlock)
      = if hasDateTimeFields data then 1 else 0 := by
  have hne : (lit "\n" ++ cBright ++ cBlue ++ lit "TypeScript definitions for:" ++ cReset
      ++ lit " " ++ cGreen ++ pathOrUnknown data ++ cReset ++ lit "\n") ≠ klbDateTimeBlock :=
    ne_klb_of_head rfl (by decide)
  rw [List.count_append, List.count_append, count_singleton_ne hne,
    count_nil_of_forall_ne hL]
  by_cases hdt : hasDateTimeFields data = true <;>
    simp [hdt, List.count_cons, List.count_nil]

/-- C3: the shared KlbDateTime interface declaration appears exactly once in
the TypeScript output when some table field, procedure argument or method
argument has type `datetime`/`timestamp` (case-insensitively), and not at all
otherwise — in both the index.js and the api.js emitter (for api.js under the
side condition that the accumulated interface body does not literally equal
the declaration chunk, which rules out string forgery).  The scan flag is also
characterized by the existential the claim quantifies over. -/
theorem claim_C3 :
    ∀ (j : JsonResponse) (data : ApiData), j.data = some data →
      apiTsBody data ≠ apiKlbChunk →
      ((idxGenerateTypeScriptDefinitions j).count klbDateTimeBlock
          = (if hasDateTimeFields data then 1 else 0)
       ∧ (apiGenerateTypeScriptDefinitions j).count apiKlbChunk
          = (if hasDateTimeFields data then 1 else 0)
       ∧ (hasDateTimeFields data = true ↔
           (∃ p ∈ (match data.table with | some t => tableFields t | none => []),
              isDTtype p.2.type = true)
           ∨ (∃ a ∈ (match data.procedure with | some pr => pr.args.getD [] | none => []),
                isDTtype a.type = true)
           ∨ (∃ f ∈ data.func.getD [], ∃ a ∈ f.args.getD [], isDTtype a.type = true))) := by
  intro j data hdata hbody
  refine ⟨?_, ?_, ?_⟩
  · simp only [idxGenerateTypeScriptDefinitions, hdata]
    refine idx_count_aux data _ ?_
    intro x hx
    rcases hproc : data.procedure with _ | proc
    · simp only [hproc] at hx
      rcases List.mem_append.mp hx with hx | hx
      · rcases htab : data.table with _ | table
        · simp only [htab, List.not_mem_nil] at hx
        · simp only [htab] at hx
          exact klb_not_mem_idxGenResourceTypes data table x hx
      · rcases hfun : data.func with _ | funcs
        · simp only [hfun, List.not_mem_nil] at hx
        · simp only [hfun] at hx
          by_cases hlen : funcs.length > 0
          · rw [if_pos hlen] at hx
            exact klb_not_mem_idxGenMethodTypes data funcs x hx
          · rw [if_neg hlen] at hx
            exact absurd hx (List.not_mem_nil x)
    · simp only [hproc] at hx
      exact klb_not_mem_idxGenProcedureTypes data proc x hx
  · simp only [apiGenerateTypeScriptDefinitions, hdata]
    have hne : (lit "\nTypeScript definitions for: " ++ pathOrUnknown data ++ lit "\n")
        ≠ apiKlbChunk := ne_apk_of_head rfl (by decide)
    rw [List.count_append, List.count_append, count_singleton_ne hne,
      count_singleton_ne hbody]
    by_cases hdt : hasDateTimeFields data = true <;>
      simp [hdt, List.count_cons, List.count_nil]
  · simp only [hasDateTimeFields, Bool.or_eq_true, or_assoc]
    refine or_congr ?_ (or_congr ?_ ?_)
    · rcases htab : data.table with _ | t
      · exact iff_of_false (by decide)
          (by rintro ⟨p, hp, _⟩; exact List.not_mem_nil p hp)
      · exact List.any_eq_true
    · rcases hproc : data.procedure with _ | ⟨pn, pst, pargs, pd1, pd2, prd, prt⟩
      · exact iff_of_false (by decide)
          (by rintro ⟨a, ha, _⟩; exact List.not_mem_nil a ha)
      · rcases pargs with _ | args
        · exact iff_of_false (fun h => Bool.false_ne_true h)
            (by rintro ⟨a, ha, _⟩; exact List.not_mem_nil a ha)
        · exact List.any_eq_true
    · rcases hf : data.func with _ | funcs
      · simp
      · simp only [List.any_eq_true, Option.getD_some]
        refine exists_congr fun f => and_congr_right fun _ => ?_
        rcases ha : f.args with _ | args <;> simp [List.any_eq_true]

/-- A concrete document with one DATETIME table column, exercising C3. -/
def c3Data : ApiData :=
  { Path := some [lit "Sample", lit "Entry"],
    table := some
      { Name := lit "SampleEntry",
        Struct := [(lit "Created", { name := lit "Created", type := some (lit "DATETIME") }),
                   (lit "Label", { name := lit "Label", type := some (lit "VARCHAR") })] } }

def c3Doc : JsonResponse := { data := some c3Data }

theorem claim_C3_witness :
    (idxGenerateTypeScriptDefinitions c3Doc).count klbDateTimeBlock
        = (if hasDateTimeFields c3Data then 1 else 0)
     ∧ (apiGenerateTypeScriptDefinitions c3Doc).count apiKlbChunk
        = (if hasDateTimeFields c3Data then 1 else 0)
     ∧ (hasDateTimeFields c3Data = true ↔
         (∃ p ∈ (match c3Data.table with | some t => tableFields t | none => []),
            isDTtype p.2.type = true)
         ∨ (∃ a ∈ (match c3Data.procedure with | some pr => pr.args.getD [] | none => []),
              isDTtype a.type = true)
         ∨ (∃ f ∈ c3Data.func.getD [], ∃ a ∈ f.args.getD [], isDTtype a.type = true)) :=
  claim_C3 c3Doc c3Data rfl (by decide)

/-! ### C6 -/

/-- A concrete document carrying a procedure together with a table and a
method list, exercising C6. -/
def c6Data : ApiData :=
  { Path := some [lit "Misc", lit "Debug"],
    table := some
      { Name := lit "MiscDebug",
        Struct := [(lit "Label", { name := lit "Label", type := some (lit "VARCHAR") })] },
    procedure := some { name := some (lit "ping"), static := true },
    func := some [{ name := some (lit "echo"), static := false }] }

def c6Doc : JsonResponse := { data := some c6Data }

/-- C6 counterexample: in the api.js description formatter a document whose
`procedure` is present still gets a table-structure section (before the
procedure section) and an available-methods section (after it): the formatter
does not terminate at the procedure section. -/
theorem claim_C6_counterexample :
    c6Data.procedure.isSome = true
      ∧ (apiFormatJsonResponse c6Doc).get? 1 = some (lit "\nTable Structure:\n")
      ∧ (apiFormatJsonResponse c6Doc).get? 3 = some (lit "\nProcedure: ping")
      ∧ (apiFormatJsonResponse c6Doc).get? 4 = some (lit "\nAvailable Methods:\n") := by
  decide

/-- C6 (amended): only the index.js description formatter terminates after
the procedure section — its output for a document with a procedure is exactly
the preamble followed by the procedure section, with no table, method or
sub-endpoint sections.  The api.js formatter instead emits the table section
before the procedure section and the methods section after it (and its
preamble already contains the subresource listing). -/
theorem claim_C6 :
    (∀ (j : JsonResponse) (data : ApiData) (proc : ProcSchema),
        j.data = some data → data.procedure = some proc →
        idxFormatJsonResponse j = idxFmtPreamble data ++ idxProcSection data proc)
    ∧ (∀ (j : JsonResponse) (data : ApiData) (proc : ProcSchema),
        j.data = some data → data.procedure = some proc →
        apiFormatJsonResponse j
          = apiFmtPreamble data ++ apiTableSection data ++ apiProcSection proc
            ++ apiFuncSection data) := by
  constructor
  · intro j data proc hdata hproc
    simp only [idxFormatJsonResponse, hdata, hproc]
  · intro j data proc hdata hproc
    simp only [apiFormatJsonResponse, hdata, hproc]

theorem claim_C6_witness :
    idxFormatJsonResponse c6Doc
        = idxFmtPreamble c6Data
          ++ idxProcSection c6Data { name := some (lit "ping"), static := true }
      ∧ apiFormatJsonResponse c6Doc
          = apiFmtPreamble c6Data ++ apiTableSection c6Data
            ++ apiProcSection { name := some (lit "ping"), static := true }
            ++ apiFuncSection c6Data :=
  ⟨claim_C6.1 c6Doc c6Data _ rfl rfl, claim_C6.2 c6Doc c6Data _ rfl rfl⟩

end Klb
